import Mathlib

/-!
Verification development for the crossterm-window terminal rendering engine.

This file shallowly embeds the data model and the operations of the Rust
sources (src/text.rs, src/buffer.rs, src/window.rs, src/window_manager.rs)
into Lean and proves properties about them.

Modelling conventions:
- u16 values are modelled as Nat; u16 arithmetic that can overflow in the
  source is modelled with an explicit mod 65536 (release-mode wrapping
  semantics), and u16 subtraction as truncated Nat subtraction, exact for
  the in-range situations the theorems hypothesize.
- Strings are iterated by extended grapheme clusters in the source (via the
  unicode-segmentation crate); a string argument is therefore embedded as a
  list of graphemes, each carrying its symbol, its display width (from the
  unicode-width crate) and its UTF-8 byte count.
- Vec indexing writes are modelled with List.set (out-of-range writes are
  no-ops in the model; the theorems carry in-bounds hypotheses that make
  the modelled runs panic-free in the source).
- The f32 scroll fraction is modelled as a rational number; the cast of a
  nonnegative f32 to u16 truncates toward zero, modelled as Int.toNat of
  the rational floor.
-/

/-- crossterm Color (the variants relevant to this development; the
concrete palette does not matter to any claim). -/
inductive Color
  | Reset
  | Black
  | Red
  | Green
  | Yellow
  | Blue
  | White
  | Rgb (r g b : Nat)
  deriving DecidableEq

/-- The nine modifier bits of text.rs (bitflags Modifier, a u16 bitset). -/
inductive ModFlag
  | bold
  | dim
  | italic
  | underlined
  | slowBlink
  | rapidBlink
  | reversed
  | hidden
  | crossedOut
  deriving DecidableEq, Fintype

/-- A Modifier is a set of flags, modelled as its characteristic function. -/
abbrev Modifier := ModFlag → Bool

/-- Modifier::empty() -/
def Modifier.empty : Modifier := fun _ => false

/-- bitflags union (the | operator and the insert method). -/
def Modifier.union (a b : Modifier) : Modifier := fun f => a f || b f

/-- bitflags set difference (the - operator and the remove method). -/
def Modifier.difference (a b : Modifier) : Modifier := fun f => a f && !(b f)

/-- Modifier.insert of bitflags is union. -/
def Modifier.insert (a b : Modifier) : Modifier := a.union b

/-- Modifier.remove of bitflags is set difference. -/
def Modifier.remove (a b : Modifier) : Modifier := a.difference b

/-- A single-flag modifier constant such as Modifier::BOLD; bitflags
contains applied to such a constant is a single bit test. -/
def Modifier.single (f : ModFlag) : Modifier := fun g => g == f

/-- Style of text.rs. -/
structure Style where
  fg : Option Color
  bg : Option Color
  add_modifier : Modifier
  sub_modifier : Modifier
  deriving DecidableEq

/-- Style::new() -/
def Style.new : Style :=
  { fg := none, bg := none, add_modifier := Modifier.empty, sub_modifier := Modifier.empty }

instance : Inhabited Style := ⟨Style.new⟩

/-- Style::patch: the fg and bg of other win when present; the add set
first drops what other subtracts then gains what other adds, and the sub
set first drops what other adds then gains what other subtracts. -/
def Style.patch (self other : Style) : Style :=
  { fg := other.fg.or self.fg
    bg := other.bg.or self.bg
    add_modifier := (self.add_modifier.remove other.sub_modifier).insert other.add_modifier
    sub_modifier := (self.sub_modifier.remove other.add_modifier).insert other.sub_modifier }

/-- Cell of buffer.rs. -/
structure Cell where
  symbol : String
  fg : Color
  bg : Color
  modifier : Modifier
  skip : Bool
  deriving DecidableEq

/-- Default::default() for Cell. -/
def Cell.default : Cell :=
  { symbol := " ", fg := Color.Reset, bg := Color.Reset, modifier := Modifier.empty, skip := false }

instance : Inhabited Cell := ⟨Cell.default⟩

/-- Cell::set_symbol (clear then push_str replaces the symbol). -/
def Cell.set_symbol (c : Cell) (s : String) : Cell := { c with symbol := s }

/-- Cell::set_style: explicit fg and bg win, the add set is inserted into
the modifier and the sub set removed from it. -/
def Cell.set_style (c : Cell) (style : Style) : Cell :=
  { c with
    fg := match style.fg with | some col => col | none => c.fg
    bg := match style.bg with | some col => col | none => c.bg
    modifier := (c.modifier.insert style.add_modifier).remove style.sub_modifier }

/-- Cell::reset: restores the single-space symbol, default colors, empty
modifier set and clears skip. The original cell content is ignored. -/
def Cell.resetCell (_c : Cell) : Cell := Cell.default

/-- An extended grapheme cluster together with its display width and its
UTF-8 byte count, the two unicode crate quantities the source consults. -/
structure Grapheme where
  sym : String
  gwidth : Nat
  bytes : Nat
  deriving DecidableEq

/-- Byte length of a string given as graphemes (String::len in Rust). -/
def titleBytes (gs : List Grapheme) : Nat := (gs.map Grapheme.bytes).sum

/-- Buffer of buffer.rs. -/
structure Buffer where
  width : Nat
  height : Nat
  content : List Cell
  deriving DecidableEq

/-- The u16 product width * height computed by the source (wraps mod 2^16). -/
def Buffer.area (b : Buffer) : Nat := b.width * b.height % 65536

/-- Vec::resize on a list: truncate or extend with the default element. -/
def listResize (l : List Cell) (n : Nat) (d : Cell) : List Cell :=
  l.take n ++ List.replicate (n - l.length) d

/-- Buffer::filled -/
def Buffer.filled (width height : Nat) (cell : Cell) : Buffer :=
  { width := width, height := height,
    content := List.replicate (width * height % 65536) cell }

/-- Buffer::empty -/
def Buffer.empty (width height : Nat) : Buffer :=
  Buffer.filled width height Cell.default

/-- Buffer::resize -/
def Buffer.resize (b : Buffer) (width height : Nat) : Buffer :=
  { width := width, height := height,
    content := listResize b.content (width * height % 65536) Cell.default }

/-- Buffer::reset -/
def Buffer.reset (b : Buffer) : Buffer :=
  { b with content := b.content.map Cell.resetCell }

/-- Buffer::index_of, including the u16 wrap of y * width + x. -/
def Buffer.index_of (b : Buffer) (x y : Nat) : Nat :=
  (y * b.width + x) % 65536

/-- Buffer::diff: one entry per index below the area of the first buffer
where the cells differ, carrying the coordinates computed from the second
buffer and the cell of the second buffer. -/
def Buffer.diff (a b : Buffer) : List (Nat × Nat × Cell) :=
  (List.range a.area).filterMap fun i =>
    if a.content.getD i Cell.default ≠ b.content.getD i Cell.default then
      some (i % 65536 % b.width, i % 65536 / b.width, b.content.getD i Cell.default)
    else none

/-- In-place update of one Vec slot: content at i is read and replaced. -/
def modifyAt (l : List Cell) (i : Nat) (f : Cell → Cell) : List Cell :=
  l.set i (f (l.getD i Cell.default))

/-- The grapheme loop of Buffer::set_stringn. The running Vec index, the
running x offset and the max offset are carried exactly as in the source;
zero-width graphemes are skipped, a grapheme wider than the remaining
space stops the loop, and a placed grapheme occupies one cell (symbol and
style applied) and resets the following gwidth - 1 cells. -/
def setStringGo (content : List Cell) (index x_offset max_offset : Nat)
    (style : Style) : List Grapheme → List Cell × Nat
  | [] => (content, x_offset)
  | g :: rest =>
    if g.gwidth = 0 then
      setStringGo content index x_offset max_offset style rest
    else if max_offset - x_offset < g.gwidth then
      (content, x_offset)
    else
      setStringGo
        ((List.range' (index + 1) (g.gwidth - 1)).foldl
          (fun acc i => acc.set i (Cell.resetCell (acc.getD i Cell.default)))
          (modifyAt content index fun c => (c.set_symbol g.sym).set_style style))
        (index + g.gwidth) (x_offset + g.gwidth) max_offset style rest

/-- Buffer::set_stringn. Returns the buffer together with the cursor
position after the last placed grapheme (the x offset cast back to u16). -/
def Buffer.set_stringn (b : Buffer) (x y : Nat) (gs : List Grapheme)
    (n : Nat) (style : Style) : Buffer × Nat × Nat :=
  let index := b.index_of x y
  let max_offset := min b.width (n + x)
  let r := setStringGo b.content index x max_offset style gs
  ({ b with content := r.1 }, r.2 % 65536, y)

/-- usize::MAX, the max width passed by Buffer::set_string. -/
def usizeMax : Nat := 2 ^ 64 - 1

/-- Buffer::set_string -/
def Buffer.set_string (b : Buffer) (x y : Nat) (gs : List Grapheme)
    (style : Style) : Buffer × Nat × Nat :=
  b.set_stringn x y gs usizeMax style

/-- Buffer::insert: every cell of the other buffer is copied verbatim to
the offset position; coordinates of the source cell come from pos_of and
the destination index from index_of, with their u16 wraps. -/
def Buffer.insert (b : Buffer) (x y : Nat) (other : Buffer) : Buffer :=
  { b with
    content := (List.range other.content.length).foldl
      (fun acc j =>
        acc.set (b.index_of ((x + j % 65536 % other.width) % 65536)
                            ((y + j % 65536 / other.width) % 65536))
                (other.content.getD j Cell.default))
      b.content }

/-- Rect of window.rs. -/
structure Rect where
  x : Nat
  y : Nat
  width : Nat
  height : Nat
  deriving DecidableEq

/-- ContentInfo of window.rs; the f32 scroll position is modelled as a
rational number. -/
structure ContentInfo where
  scroll : Bool
  scroll_pos : Rat
  deriving DecidableEq

/-- Default::default() for ContentInfo. -/
def ContentInfo.default : ContentInfo := { scroll := false, scroll_pos := 0 }

/-- The WindowContent trait: the three content capabilities, each taking
the content state and the interior buffer and returning the new state, the
mutated buffer and a ContentInfo. Events are not consumed by any claim, so
the event capability takes no event payload here. -/
structure WContent (σ : Type) where
  redraw : σ → Buffer → σ × Buffer × ContentInfo
  update : σ → Buffer → σ × Buffer × ContentInfo

/-- WindowContentNone: leaves the buffer untouched, returns default info. -/
def WindowContentNone : WContent Unit :=
  { redraw := fun s b => (s, b, ContentInfo.default)
    update := fun s b => (s, b, ContentInfo.default) }

/-- Window of window.rs, parametric over the content state (the source
stores a boxed trait object). -/
structure Window (σ : Type) where
  title : List Grapheme
  area : Rect
  buffer : Buffer
  content : σ
  content_info : ContentInfo

/-- Window::new: the interior buffer is sized to (width - 2, height - 2). -/
def Window.new {σ : Type} (title : List Grapheme) (area : Rect) (content : σ) :
    Window σ :=
  { title := title, area := area,
    buffer := Buffer.empty (area.width - 2) (area.height - 2),
    content := content, content_info := ContentInfo.default }

/-- Window::resize: updates the area, resizes the interior buffer to the
full (width, height), then invokes the content redraw capability. -/
def Window.resize {σ : Type} (impl : WContent σ) (w : Window σ)
    (width height : Nat) : Window σ :=
  let area := { w.area with width := width, height := height }
  let buffer := w.buffer.resize width height
  let r := impl.redraw w.content buffer
  { w with area := area, buffer := r.2.1, content := r.1, content_info := r.2.2 }

/-- u16::saturating_add_signed -/
def satAddSigned (a : Nat) (d : Int) : Nat := min ((a : Int) + d).toNat 65535

/-- Window::resize_by -/
def Window.resize_by {σ : Type} (impl : WContent σ) (w : Window σ)
    (dw dh : Int) : Window σ :=
  w.resize impl (satAddSigned w.area.width dw) (satAddSigned w.area.height dh)

/-- Window::move_by -/
def Window.move_by {σ : Type} (w : Window σ) (dx dy : Int) : Window σ :=
  { w with area := { w.area with x := satAddSigned w.area.x dx,
                                 y := satAddSigned w.area.y dy } }

/-- The glyphs draw_border places, with their display widths and bytes. -/
def cornerTL : Grapheme := { sym := "╭", gwidth := 1, bytes := 3 }

def cornerTR : Grapheme := { sym := "╮", gwidth := 1, bytes := 3 }

def cornerBL : Grapheme := { sym := "╰", gwidth := 1, bytes := 3 }

def cornerBR : Grapheme := { sym := "╯", gwidth := 1, bytes := 3 }

def hbar : Grapheme := { sym := "─", gwidth := 1, bytes := 3 }

def vbar : Grapheme := { sym := "│", gwidth := 1, bytes := 3 }

def upArrow : Grapheme := { sym := "∧", gwidth := 1, bytes := 3 }

def downArrow : Grapheme := { sym := "∨", gwidth := 1, bytes := 3 }

def trackGlyph : Grapheme := { sym := "╎", gwidth := 1, bytes := 3 }

def thumbGlyph : Grapheme := { sym := "█", gwidth := 1, bytes := 3 }

/-- The top-edge statements of draw_border of window.rs: top-left corner,
up to min(title byte length, width - 2) of the title, horizontal rule
fill, top-right corner, all on row area.y. Each Rust range loop
for i in a..b is a fold over List.range' a (b - a). -/
def draw_border_top (buf : Buffer) (area : Rect) (title : List Grapheme) : Buffer :=
  let buf := (buf.set_stringn area.x area.y [cornerTL] 1 Style.new).1
  let len := min (titleBytes title) (area.width - 2)
  let buf := (buf.set_stringn (area.x + 1) area.y title len Style.new).1
  let buf := (List.range' (len + 1) (area.width - 1 - (len + 1))).foldl
    (fun b i => (b.set_stringn (area.x + i) area.y [hbar] 1 Style.new).1) buf
  (buf.set_stringn (area.x + area.width - 1) area.y [cornerTR] 1 Style.new).1

/-- The middle statements of draw_border: the left vertical rule, then
the right edge — either the scrollbar (arrows, track, thumb at row
area.y + 2 + floor((area.height - 4) * scroll_pos)) or a plain vertical
rule. -/
def draw_border_sides (buf : Buffer) (area : Rect) (info : ContentInfo) : Buffer :=
  let buf := (List.range' 1 (area.height - 1)).foldl
    (fun b i => (b.set_stringn area.x (area.y + i) [vbar] 1 Style.new).1) buf
  if info.scroll then
    let buf := (buf.set_stringn (area.x + area.width - 1) (area.y + 1) [upArrow] 1 Style.new).1
    let buf := (buf.set_stringn (area.x + area.width - 1) (area.y + area.height - 1)
      [downArrow] 1 Style.new).1
    let buf := (List.range' 2 (area.height - 1 - 2)).foldl
      (fun b i => (b.set_stringn (area.x + area.width - 1) (area.y + i)
        [trackGlyph] 1 Style.new).1) buf
    let pos := (((area.height - 4 : Nat) : Rat) * info.scroll_pos).floor.toNat
    (buf.set_stringn (area.x + area.width - 1) (area.y + 2 + pos) [thumbGlyph] 1 Style.new).1
  else
    (List.range' 1 (area.height - 1)).foldl
      (fun b i => (b.set_stringn (area.x + area.width - 1) (area.y + i)
        [vbar] 1 Style.new).1) buf

/-- The bottom-edge statements of draw_border: bottom-left corner, fill,
bottom-right corner, all on row area.y + area.height. -/
def draw_border_bottom (buf : Buffer) (area : Rect) : Buffer :=
  let buf := (buf.set_stringn area.x (area.y + area.height) [cornerBL] 1 Style.new).1
  let buf := (List.range' 1 (area.width - 1 - 1)).foldl
    (fun b i => (b.set_stringn (area.x + i) (area.y + area.height) [hbar] 1 Style.new).1) buf
  (buf.set_stringn (area.x + area.width - 1) (area.y + area.height) [cornerBR] 1 Style.new).1

/-- draw_border of window.rs: its statements run top edge, side edges,
bottom edge, in source order. -/
def draw_border (buf : Buffer) (area : Rect) (title : List Grapheme)
    (info : ContentInfo) : Buffer :=
  draw_border_bottom (draw_border_sides (draw_border_top buf area title) area info) area

/-- Window::draw: copy the interior buffer into the parent at the offset
(x + 1, y + 1), then render the border onto the parent. -/
def Window.draw {σ : Type} (w : Window σ) (parent : Buffer) : Buffer :=
  draw_border (parent.insert (w.area.x + 1) (w.area.y + 1) w.buffer)
    w.area w.title w.content_info

/-- WindowManager of window_manager.rs. Windows are stored with erased
content (drawing never consults it), so the Unit content state is used. -/
structure WindowManager where
  buffers : Buffer × Buffer
  current : Nat
  should_exit : Bool
  width : Nat
  height : Nat
  windows : List (Window Unit)
  current_window : Nat

/-- The buffers array indexed as in the source (index 0 or 1). -/
def WindowManager.buf (m : WindowManager) (i : Nat) : Buffer :=
  if i = 0 then m.buffers.1 else m.buffers.2

/-- WindowManager::draw_windows: every window draws into the current
buffer in list order. -/
def WindowManager.draw_windows (m : WindowManager) : WindowManager :=
  let b := m.windows.foldl (fun acc w => w.draw acc) (m.buf m.current)
  { m with buffers := if m.current = 0 then (b, m.buffers.2) else (m.buffers.1, b) }

/-- WindowManager::swap_buffers: reset the inactive buffer, then toggle
the current index. -/
def WindowManager.swap_buffers (m : WindowManager) : WindowManager :=
  let other := 1 - m.current
  let buffers :=
    if other = 0 then (m.buffers.1.reset, m.buffers.2)
    else (m.buffers.1, m.buffers.2.reset)
  { m with buffers := buffers, current := other }

/-- One completed frame of the manager loop: recomposite all windows into
the current buffer (draw_windows), emit the diff to the backend (flush, a
pure read of the two buffers), then swap. -/
def WindowManager.frame (m : WindowManager) : WindowManager :=
  m.draw_windows.swap_buffers

/-- Concrete styles used by witnesses. -/
def styleA : Style :=
  { fg := some Color.Red, bg := none,
    add_modifier := Modifier.single ModFlag.bold, sub_modifier := Modifier.empty }

def styleB : Style :=
  { fg := none, bg := some Color.Blue,
    add_modifier := Modifier.single ModFlag.dim,
    sub_modifier := Modifier.single ModFlag.bold }

def styleC : Style :=
  { fg := some Color.Green, bg := none,
    add_modifier := Modifier.empty, sub_modifier := Modifier.single ModFlag.italic }

/-- A content implementation that counts redraw invocations, used to
observe that resize invokes the redraw capability. -/
def countingContent : WContent Nat :=
  { redraw := fun s b => (s + 1, b, ContentInfo.default)
    update := fun s b => (s, b, ContentInfo.default) }

/-- The abstract attribute directives (crossterm Attribute values the
queue method emits). -/
inductive Attr
  | Reset
  | Bold
  | Dim
  | Italic
  | Underlined
  | SlowBlink
  | RapidBlink
  | Reverse
  | CrossedOut
  | NoReverse
  | NormalIntensity
  | NoItalic
  | NoUnderline
  | NoBlink
  | NotCrossedOut
  deriving DecidableEq

/-- ModifierDiff of window_manager.rs (fromMod and toMod stand for the
from and to fields). -/
structure ModifierDiff where
  fromMod : Modifier
  toMod : Modifier

/-- ModifierDiff::queue: the sequence of directives queued to the writer,
in source order. Each queue! call appends one directive. -/
def ModifierDiff.queue (d : ModifierDiff) : List Attr :=
  let removed := d.fromMod.difference d.toMod
  let added := d.toMod.difference d.fromMod
  (if removed ModFlag.reversed then [Attr.NoReverse] else []) ++
  (if removed ModFlag.bold then
    [Attr.NormalIntensity] ++ (if d.toMod ModFlag.dim then [Attr.Dim] else [])
  else []) ++
  (if removed ModFlag.italic then [Attr.NoItalic] else []) ++
  (if removed ModFlag.underlined then [Attr.NoUnderline] else []) ++
  (if removed ModFlag.dim then [Attr.NormalIntensity] else []) ++
  (if removed ModFlag.crossedOut then [Attr.NotCrossedOut] else []) ++
  (if removed ModFlag.slowBlink || removed ModFlag.rapidBlink then [Attr.NoBlink] else []) ++
  (if added ModFlag.reversed then [Attr.Reverse] else []) ++
  (if added ModFlag.bold then [Attr.Bold] else []) ++
  (if added ModFlag.italic then [Attr.Italic] else []) ++
  (if added ModFlag.underlined then [Attr.Underlined] else []) ++
  (if added ModFlag.dim then [Attr.Dim] else []) ++
  (if added ModFlag.crossedOut then [Attr.CrossedOut] else []) ++
  (if added ModFlag.slowBlink then [Attr.SlowBlink] else []) ++
  (if added ModFlag.rapidBlink then [Attr.RapidBlink] else [])

/-- The directives the amended claim describes: one disable per removed
bit among reversed, bold, italic, underlined, dim and crossed-out, in
that canonical order, with the dim re-emit after a bold disable when the
target still holds dim; one shared no-blink disable when either blink bit
is removed; no directive for hidden; then one enable per added bit in the
same canonical order, with slow and rapid blink enabled separately. -/
def canonicalDirectives (fm tm : Modifier) : List Attr :=
  let removed := fm.difference tm
  let added := tm.difference fm
  (if removed ModFlag.reversed then [Attr.NoReverse] else []) ++
  (if removed ModFlag.bold then
    Attr.NormalIntensity :: (if tm ModFlag.dim then [Attr.Dim] else [])
  else []) ++
  (if removed ModFlag.italic then [Attr.NoItalic] else []) ++
  (if removed ModFlag.underlined then [Attr.NoUnderline] else []) ++
  (if removed ModFlag.dim then [Attr.NormalIntensity] else []) ++
  (if removed ModFlag.crossedOut then [Attr.NotCrossedOut] else []) ++
  (if removed ModFlag.slowBlink || removed ModFlag.rapidBlink then [Attr.NoBlink] else []) ++
  ((if added ModFlag.reversed then [Attr.Reverse] else []) ++
   (if added ModFlag.bold then [Attr.Bold] else []) ++
   (if added ModFlag.italic then [Attr.Italic] else []) ++
   (if added ModFlag.underlined then [Attr.Underlined] else []) ++
   (if added ModFlag.dim then [Attr.Dim] else []) ++
   (if added ModFlag.crossedOut then [Attr.CrossedOut] else []) ++
   (if added ModFlag.slowBlink then [Attr.SlowBlink] else []) ++
   (if added ModFlag.rapidBlink then [Attr.RapidBlink] else []))

/-- Concrete buffers used by the diff witness. -/
def diffBufA : Buffer := Buffer.empty 2 1

def diffBufB : Buffer := ⟨2, 1, [Cell.default, { Cell.default with fg := Color.Red }]⟩

/-- Concrete manager used by the frame witness. -/
def wmW : WindowManager :=
  ⟨(Buffer.empty 1 1, Buffer.empty 1 1), 0, false, 1, 1, [], 0⟩

/-- Graphemes used by witnesses: a 2-column CJK glyph and a 1-column
ASCII letter. -/
def wideG : Grapheme := { sym := "一", gwidth := 2, bytes := 3 }

def narrowG : Grapheme := { sym := "a", gwidth := 1, bytes := 1 }

/-- Concrete instances used by the thumb witness. -/
def c9Buf : Buffer := Buffer.empty 8 9

def c9Area : Rect := ⟨0, 0, 8, 8⟩

def c9Info : ContentInfo := ⟨true, 1⟩

/-- Concrete window and parent used by the footprint witness. -/
def wfW : Window Unit := Window.new [] ⟨1, 1, 4, 3⟩ ()

def wfP : Buffer := Buffer.empty 8 8

theorem Modifier.union_empty (a : Modifier) : a.union Modifier.empty = a := by
  funext f; simp [Modifier.union, Modifier.empty]

theorem Modifier.difference_empty (a : Modifier) : a.difference Modifier.empty = a := by
  funext f; simp [Modifier.difference, Modifier.empty]

theorem Modifier.difference_self (a : Modifier) : a.difference a = Modifier.empty := by
  funext f; simp [Modifier.difference, Modifier.empty]

theorem Cell.resetCell_const (c : Cell) : c.resetCell = Cell.default := rfl

theorem listResize_length (l : List Cell) (n : Nat) (d : Cell) :
    (listResize l n d).length = n := by
  simp [listResize]
  omega

/-! ### List and index helper lemmas -/

theorem getD_set_ne (l : List Cell) (i j : Nat) (v : Cell) (d : Cell) (h : i ≠ j) :
    (l.set i v).getD j d = l.getD j d := by
  simp [List.getD, List.getElem?_set_ne h]

theorem getD_set_self (l : List Cell) (i : Nat) (v : Cell) (d : Cell) (h : i < l.length) :
    (l.set i v).getD i d = v := by
  simp [List.getD, List.getElem?_set_self h]

theorem foldlSet_length (ks : List Nat) (tgt : Nat → Nat) (v : Nat → Cell) (acc : List Cell) :
    (ks.foldl (fun a k => a.set (tgt k) (v k)) acc).length = acc.length := by
  induction ks generalizing acc with
  | nil => rfl
  | cons k ks ih => simp [ih]

theorem foldlSet_getD_ne (ks : List Nat) (tgt : Nat → Nat) (v : Nat → Cell)
    (acc : List Cell) (i : Nat) (d : Cell) (h : ∀ k ∈ ks, tgt k ≠ i) :
    (ks.foldl (fun a k => a.set (tgt k) (v k)) acc).getD i d = acc.getD i d := by
  induction ks generalizing acc with
  | nil => rfl
  | cons k ks ih =>
    simp only [List.foldl_cons]
    rw [ih _ fun k' hk' => h k' (List.mem_cons_of_mem _ hk')]
    exact getD_set_ne _ _ _ _ _ (h k (List.mem_cons_self k ks))

theorem foldlSet_getD_mem (ks : List Nat) (v : Cell) (acc : List Cell) (i : Nat) (d : Cell)
    (hmem : i ∈ ks) (hlen : i < acc.length) :
    (ks.foldl (fun a k => a.set k v) acc).getD i d = v := by
  induction ks generalizing acc with
  | nil => cases hmem
  | cons k ks ih =>
    simp only [List.foldl_cons]
    by_cases hi : i ∈ ks
    · exact ih _ hi (by simpa using hlen)
    · have hk : k = i := by
        rcases List.mem_cons.mp hmem with h | h
        · exact h.symm
        · exact absurd h hi
      subst hk
      rw [show (fun (a : List Cell) (k' : Nat) => a.set k' v) = fun a k' => a.set (id k') ((fun _ => v) k') from rfl]
      rw [foldlSet_getD_ne ks id (fun _ => v) _ _ _ ?_]
      · exact getD_set_self _ _ _ _ hlen
      · intro k' hk'
        simp only [id]
        intro he
        exact hi (he ▸ hk')

theorem rowcol_mod (y W c : Nat) (hc : c < W) : (y * W + c) % W = c := by
  rw [Nat.mul_comm, Nat.mul_add_mod, Nat.mod_eq_of_lt hc]

theorem rowcol_div (y W c : Nat) (hc : c < W) : (y * W + c) / W = y := by
  have hW : 0 < W := Nat.pos_of_ne_zero fun h => by omega
  rw [Nat.mul_comm, Nat.mul_add_div hW, Nat.div_eq_of_lt hc]
  omega

theorem idx_lt (y c W H : Nat) (hc : c < W) (hy : y < H) : y * W + c < W * H :=
  calc y * W + c < y * W + W := by omega
    _ = (y + 1) * W := by ring
    _ ≤ H * W := Nat.mul_le_mul_right W hy
    _ = W * H := Nat.mul_comm H W

theorem modifyAt_length (l : List Cell) (i : Nat) (f : Cell → Cell) :
    (modifyAt l i f).length = l.length := by
  simp [modifyAt]

/-! ### Lemmas about the set_stringn loop -/

theorem setStringGo_length (gs : List Grapheme) (content : List Cell)
    (index x_offset max_offset : Nat) (style : Style) :
    ((setStringGo content index x_offset max_offset style gs).1).length = content.length := by
  induction gs generalizing content index x_offset with
  | nil => rfl
  | cons g rest ih =>
    rw [setStringGo]
    by_cases h0 : g.gwidth = 0
    · rw [if_pos h0]; exact ih content index x_offset
    · rw [if_neg h0]
      by_cases h1 : max_offset - x_offset < g.gwidth
      · rw [if_pos h1]
      · rw [if_neg h1]
        rw [ih]
        rw [show (fun (acc : List Cell) (k : Nat) =>
              acc.set k (Cell.resetCell (acc.getD k Cell.default)))
            = fun acc k => acc.set (id k) ((fun _ => Cell.default) k) from rfl]
        rw [foldlSet_length, modifyAt_length]

/-- The grapheme loop never touches a cell whose column lies left of the
running x offset or at or beyond the max offset, nor any cell in another
row. -/
theorem setStringGo_getD_ne (gs : List Grapheme) (content : List Cell)
    (y W x_offset max_offset : Nat) (style : Style) (i : Nat) (d : Cell)
    (hmax : max_offset ≤ W)
    (hi : i % W < x_offset ∨ max_offset ≤ i % W ∨ i / W ≠ y) :
    ((setStringGo content (y * W + x_offset) x_offset max_offset style gs).1).getD i d
      = content.getD i d := by
  induction gs generalizing content x_offset with
  | nil => rfl
  | cons g rest ih =>
    rw [setStringGo]
    by_cases h0 : g.gwidth = 0
    · rw [if_pos h0]; exact ih content x_offset hi
    · rw [if_neg h0]
      by_cases h1 : max_offset - x_offset < g.gwidth
      · rw [if_pos h1]
      · rw [if_neg h1]
        have hfit : x_offset + g.gwidth ≤ max_offset := by omega
        have hxW : x_offset < W := by omega
        have hidx : y * W + x_offset + g.gwidth = y * W + (x_offset + g.gwidth) := by omega
        rw [hidx]
        rw [ih _ (x_offset + g.gwidth)
          (by rcases hi with h | h | h
              · exact Or.inl (by omega)
              · exact Or.inr (Or.inl h)
              · exact Or.inr (Or.inr h))]
        rw [show (fun (acc : List Cell) (k : Nat) =>
              acc.set k (Cell.resetCell (acc.getD k Cell.default)))
            = fun acc k => acc.set (id k) ((fun _ => Cell.default) k) from rfl]
        rw [foldlSet_getD_ne _ id _ _ _ _ ?resets]
        case resets =>
          intro k hk
          rw [List.mem_range'_1] at hk
          simp only [id]
          intro he
          have hcge : y * W + x_offset + 1 ≤ k := hk.1
          have hclt : k < y * W + x_offset + 1 + (g.gwidth - 1) := hk.2
          have hkc : k = y * W + (k - y * W) := by omega
          have hcb : x_offset + 1 ≤ k - y * W ∧ k - y * W < x_offset + g.gwidth := by omega
          have hcW : k - y * W < W := by omega
          have h2 : i % W = k - y * W := by
            have hm := rowcol_mod y W (k - y * W) hcW
            rw [← hkc] at hm
            rw [← he]
            exact hm
          have h3 : i / W = y := by
            have hd := rowcol_div y W (k - y * W) hcW
            rw [← hkc] at hd
            rw [← he]
            exact hd
          rcases hi with h | h | h <;> omega
        exact getD_set_ne _ _ _ _ _ (by
          intro he
          have h2 : i % W = x_offset := by rw [← he, rowcol_mod y W _ hxW]
          have h3 : i / W = y := by rw [← he, rowcol_div y W _ hxW]
          rcases hi with h | h | h <;> omega)

theorem sset_width (b : Buffer) (x y n : Nat) (gs : List Grapheme) (st : Style) :
    ((b.set_stringn x y gs n st).1).width = b.width := rfl

theorem sset_height (b : Buffer) (x y n : Nat) (gs : List Grapheme) (st : Style) :
    ((b.set_stringn x y gs n st).1).height = b.height := rfl

theorem sset_length (b : Buffer) (x y n : Nat) (gs : List Grapheme) (st : Style) :
    ((b.set_stringn x y gs n st).1).content.length = b.content.length := by
  simp only [Buffer.set_stringn]
  exact setStringGo_length gs b.content _ x _ st

/-- set_stringn leaves untouched every cell whose column is left of x, at
or beyond min(width, n + x), or whose row is not y. -/
theorem sset_getD_notouch (b : Buffer) (x y n : Nat) (gs : List Grapheme) (st : Style)
    (i : Nat) (d : Cell)
    (hxy : y * b.width + x < 65536)
    (hi : i % b.width < x ∨ min b.width (n + x) ≤ i % b.width ∨ i / b.width ≠ y) :
    ((b.set_stringn x y gs n st).1).content.getD i d = b.content.getD i d := by
  simp only [Buffer.set_stringn, Buffer.index_of]
  rw [Nat.mod_eq_of_lt hxy]
  exact setStringGo_getD_ne gs b.content y b.width x (min b.width (n + x)) st i d
    (Nat.min_le_left _ _) hi

/-- A single-glyph set_stringn call touches at most the cell at (x, y). -/
theorem sset1_getD_ne (b : Buffer) (x y : Nat) (g : Grapheme) (st : Style) (i : Nat) (d : Cell)
    (hxy : y * b.width + x < 65536)
    (hi : i % b.width ≠ x ∨ i / b.width ≠ y) :
    ((b.set_stringn x y [g] 1 st).1).content.getD i d = b.content.getD i d := by
  apply sset_getD_notouch b x y 1 [g] st i d hxy
  rcases hi with h | h
  · rcases Nat.lt_or_ge (i % b.width) x with h2 | h2
    · exact Or.inl h2
    · exact Or.inr (Or.inl (by omega))
  · exact Or.inr (Or.inr h)

/-- The exact effect of placing one grapheme that fits: symbol and style
on the cell at the target index, the following gwidth - 1 cells reset. -/
theorem sset_single (b : Buffer) (x y n : Nat) (g : Grapheme) (st : Style)
    (hg : 0 < g.gwidth) (hxy : y * b.width + x < 65536)
    (hfit : x + g.gwidth ≤ min b.width (n + x)) :
    (b.set_stringn x y [g] n st).1 =
      { b with content :=
          ((List.range' (y * b.width + x + 1) (g.gwidth - 1)).foldl
            (fun acc k => acc.set k (Cell.resetCell (acc.getD k Cell.default)))
            (modifyAt b.content (y * b.width + x)
              fun c => (c.set_symbol g.sym).set_style st)) } := by
  simp only [Buffer.set_stringn, Buffer.index_of]
  rw [Nat.mod_eq_of_lt hxy]
  rw [setStringGo]
  rw [if_neg (by omega), if_neg (by omega)]
  rw [setStringGo]

/-- When the first grapheme does not fit in the remaining space, nothing
at all is placed and the cursor stays at x. -/
theorem sset_nofit (b : Buffer) (x y n : Nat) (g : Grapheme) (gs : List Grapheme) (st : Style)
    (hg : 0 < g.gwidth) (hnofit : min b.width (n + x) < x + g.gwidth) :
    b.set_stringn x y (g :: gs) n st = (b, x % 65536, y) := by
  simp only [Buffer.set_stringn]
  rw [setStringGo, if_neg (by omega), if_pos (by omega)]

/-- The value a single width-1 glyph leaves at its target cell. -/
theorem sset1_getD_self (b : Buffer) (x y : Nat) (g : Grapheme) (st : Style) (d : Cell)
    (hg : g.gwidth = 1) (hx : x < b.width) (hxy : y * b.width + x < 65536)
    (hlen : y * b.width + x < b.content.length) :
    ((b.set_stringn x y [g] 1 st).1).content.getD (y * b.width + x) d
      = ((b.content.getD (y * b.width + x) Cell.default).set_symbol g.sym).set_style st := by
  rw [sset_single b x y 1 g st (by omega) hxy (by omega)]
  show ((List.range' (y * b.width + x + 1) (g.gwidth - 1)).foldl
      (fun acc k => acc.set k (Cell.resetCell (acc.getD k Cell.default)))
      (modifyAt b.content (y * b.width + x)
        fun c => (c.set_symbol g.sym).set_style st)).getD (y * b.width + x) d
    = ((b.content.getD (y * b.width + x) Cell.default).set_symbol g.sym).set_style st
  rw [hg]
  show (modifyAt b.content (y * b.width + x)
      fun c => (c.set_symbol g.sym).set_style st).getD (y * b.width + x) d
    = ((b.content.getD (y * b.width + x) Cell.default).set_symbol g.sym).set_style st
  exact getD_set_self _ _ _ _ hlen

/-- The loop stops entirely at the first nonzero-width grapheme that does
not fit: that grapheme and everything after it are dropped, and the result
is that of the run on the preceding graphemes alone. -/
theorem setStringGo_stop (gs1 : List Grapheme) (g : Grapheme) (rest : List Grapheme)
    (content : List Cell) (index x_offset max_offset : Nat) (style : Style)
    (hstop : max_offset - (x_offset + (gs1.map Grapheme.gwidth).sum) < g.gwidth) :
    setStringGo content index x_offset max_offset style (gs1 ++ g :: rest)
      = setStringGo content index x_offset max_offset style gs1 := by
  induction gs1 generalizing content index x_offset with
  | nil =>
    simp only [List.nil_append, List.map_nil, List.sum_nil, Nat.add_zero] at hstop ⊢
    have hg0 : ¬g.gwidth = 0 := by omega
    conv_lhs => rw [setStringGo]
    rw [if_neg hg0, if_pos hstop]
    rfl
  | cons a gs1 ih =>
    simp only [List.cons_append]
    simp only [List.map_cons, List.sum_cons] at hstop
    conv_lhs => rw [setStringGo]
    conv_rhs => rw [setStringGo]
    by_cases h0 : a.gwidth = 0
    · rw [if_pos h0, if_pos h0]
      exact ih _ _ _ (by omega)
    · rw [if_neg h0, if_neg h0]
      by_cases h1 : max_offset - x_offset < a.gwidth
      · rw [if_pos h1, if_pos h1]
      · rw [if_neg h1, if_neg h1]
        exact ih _ _ _ (by omega)

theorem insert_width (b : Buffer) (x y : Nat) (other : Buffer) :
    (b.insert x y other).width = b.width := rfl

theorem insert_height (b : Buffer) (x y : Nat) (other : Buffer) :
    (b.insert x y other).height = b.height := rfl

theorem insert_length (b : Buffer) (x y : Nat) (other : Buffer) :
    (b.insert x y other).content.length = b.content.length := by
  simp only [Buffer.insert]
  exact foldlSet_length (List.range other.content.length)
    (fun j => b.index_of ((x + j % 65536 % other.width) % 65536)
      ((y + j % 65536 / other.width) % 65536))
    (fun j => other.content.getD j Cell.default) b.content

/-- insert touches only the rectangle of the inserted buffer: any cell
whose row or column lies outside it keeps its value. -/
theorem insert_getD_outside (b : Buffer) (x y : Nat) (other : Buffer) (i : Nat) (d : Cell)
    (how : 0 < other.width)
    (holen : other.content.length = other.width * other.height)
    (hxs : x + other.width ≤ b.width)
    (hys : y + other.height ≤ b.height)
    (harea : b.width * b.height < 65536)
    (hi : i / b.width < y ∨ y + other.height ≤ i / b.width ∨
          i % b.width < x ∨ x + other.width ≤ i % b.width) :
    (b.insert x y other).content.getD i d = b.content.getD i d := by
  simp only [Buffer.insert]
  refine foldlSet_getD_ne (List.range other.content.length)
    (fun j => b.index_of ((x + j % 65536 % other.width) % 65536)
      ((y + j % 65536 / other.width) % 65536))
    (fun j => other.content.getD j Cell.default) b.content i d ?_
  intro j hj
  rw [List.mem_range, holen] at hj
  have hoh : 0 < other.height := by
    rcases Nat.eq_zero_or_pos other.height with h | h
    · rw [h, Nat.mul_zero] at hj; omega
    · exact h
  have hH : 0 < b.height := by omega
  have hmul : other.width * other.height ≤ b.width * b.height :=
    Nat.mul_le_mul (by omega) (by omega)
  have hj65 : j < 65536 := by omega
  have hxc : j % other.width < other.width := Nat.mod_lt _ how
  have hyc : j / other.width < other.height := by
    rw [Nat.div_lt_iff_lt_mul how, Nat.mul_comm]
    exact hj
  have hW65 : b.width ≤ 65536 := le_trans (Nat.le_mul_of_pos_right _ hH) (le_of_lt harea)
  have hH65 : b.height ≤ 65536 := le_trans (Nat.le_mul_of_pos_left _ (by omega)) (le_of_lt harea)
  simp only [Buffer.index_of]
  rw [Nat.mod_eq_of_lt hj65]
  rw [Nat.mod_eq_of_lt (show x + j % other.width < 65536 by omega)]
  rw [Nat.mod_eq_of_lt (show y + j / other.width < 65536 by omega)]
  have hcW : x + j % other.width < b.width := by omega
  have hrH : y + j / other.width < b.height := by omega
  rw [Nat.mod_eq_of_lt (lt_trans (idx_lt _ _ _ _ hcW hrH) harea)]
  intro he
  have h2 : i % b.width = x + j % other.width := by rw [← he, rowcol_mod _ _ _ hcW]
  have h3 : i / b.width = y + j / other.width := by rw [← he, rowcol_div _ _ _ hcW]
  obtain ⟨xc, hxceq⟩ : ∃ v, v = j % other.width := ⟨_, rfl⟩
  obtain ⟨yc, hyceq⟩ : ∃ v, v = j / other.width := ⟨_, rfl⟩
  obtain ⟨ic, hiceq⟩ : ∃ v, v = i % b.width := ⟨_, rfl⟩
  obtain ⟨ir, hireq⟩ : ∃ v, v = i / b.width := ⟨_, rfl⟩
  rw [← hxceq, ← hiceq] at h2
  rw [← hyceq, ← hireq] at h3
  rw [← hiceq, ← hireq] at hi
  rw [← hxceq] at hxc
  rw [← hyceq] at hyc
  rcases hi with h | h | h | h <;> omega

/-! ### C7: Style.patch -/

theorem patchAdd_assoc (ap bp bm cp cm : Bool) :
    ((((ap && !bm) || bp) && !cm) || cp)
      = ((ap && !((bm && !cp) || cm)) || ((bp && !cm) || cp)) := by
  revert ap bp bm cp cm; decide

theorem patchSub_assoc (am bm bp cm cp : Bool) :
    ((((am && !bp) || bm) && !cp) || cm)
      = ((am && !((bp && !cm) || cp)) || ((bm && !cp) || cm)) := by
  revert am bm bp cm cp; decide

theorem patch_excl_bool (ap as bp bs : Bool) (ha : (ap && as) = false)
    (hb : (bp && bs) = false) :
    (((ap && !bs) || bp) && ((as && !bp) || bs)) = false := by
  revert ha hb; revert ap as bp bs; decide

theorem patch_subk_bool (ap bp bs : Bool) (hb : (bp && bs) = false) (hs : bs = true) :
    ((ap && !bs) || bp) = false := by
  revert hb hs; revert ap bp bs; decide

theorem Style.ext (s t : Style) (h1 : s.fg = t.fg) (h2 : s.bg = t.bg)
    (h3 : s.add_modifier = t.add_modifier) (h4 : s.sub_modifier = t.sub_modifier) : s = t := by
  cases s; cases t; simp_all

/-- C7: Style.patch is associative (for styles with disjoint add and sub
sets, as the claim scopes it), patch preserves the mutual exclusivity of
the add and sub sets, every modifier added by the right operand is in the
add set of the result, and every modifier subtracted by the right operand
is absent from that add set. -/
theorem style_patch_assoc (a b c : Style)
    (ha : ∀ f, (a.add_modifier f && a.sub_modifier f) = false)
    (hb : ∀ f, (b.add_modifier f && b.sub_modifier f) = false)
    (hc : ∀ f, (c.add_modifier f && c.sub_modifier f) = false) :
    (a.patch b).patch c = a.patch (b.patch c)
    ∧ (∀ f, ((a.patch b).add_modifier f && (a.patch b).sub_modifier f) = false)
    ∧ (∀ f, b.add_modifier f = true → (a.patch b).add_modifier f = true)
    ∧ (∀ f, b.sub_modifier f = true → (a.patch b).add_modifier f = false) := by
  refine ⟨?_, ?_, ?_, ?_⟩
  · apply Style.ext
    · simp only [Style.patch]
      cases c.fg <;> simp [Option.or]
    · simp only [Style.patch]
      cases c.bg <;> simp [Option.or]
    · funext f
      simp only [Style.patch, Modifier.insert, Modifier.remove, Modifier.union,
        Modifier.difference]
      exact patchAdd_assoc (a.add_modifier f) (b.add_modifier f) (b.sub_modifier f)
        (c.add_modifier f) (c.sub_modifier f)
    · funext f
      simp only [Style.patch, Modifier.insert, Modifier.remove, Modifier.union,
        Modifier.difference]
      exact patchSub_assoc (a.sub_modifier f) (b.sub_modifier f) (b.add_modifier f)
        (c.sub_modifier f) (c.add_modifier f)
  · intro f
    simp only [Style.patch, Modifier.insert, Modifier.remove, Modifier.union,
      Modifier.difference]
    exact patch_excl_bool _ _ _ _ (ha f) (hb f)
  · intro f hf
    simp only [Style.patch, Modifier.insert, Modifier.remove, Modifier.union,
      Modifier.difference]
    rw [hf]
    simp
  · intro f hf
    simp only [Style.patch, Modifier.insert, Modifier.remove, Modifier.union,
      Modifier.difference]
    exact patch_subk_bool _ _ _ (hb f) hf

/-- Witness for style_patch_assoc at concrete styles. -/
theorem style_patch_assoc_witness :
    ((∀ f, (styleA.add_modifier f && styleA.sub_modifier f) = false)
      ∧ (∀ f, (styleB.add_modifier f && styleB.sub_modifier f) = false)
      ∧ (∀ f, (styleC.add_modifier f && styleC.sub_modifier f) = false))
    ∧ ((styleA.patch styleB).patch styleC = styleA.patch (styleB.patch styleC)
      ∧ (∀ f, ((styleA.patch styleB).add_modifier f && (styleA.patch styleB).sub_modifier f) = false)
      ∧ (∀ f, styleB.add_modifier f = true → (styleA.patch styleB).add_modifier f = true)
      ∧ (∀ f, styleB.sub_modifier f = true → (styleA.patch styleB).add_modifier f = false)) :=
  ⟨⟨by decide, by decide, by decide⟩,
    style_patch_assoc styleA styleB styleC (by decide) (by decide) (by decide)⟩

/-! ### C8: the cells.length invariant -/

/-- C8 counterexample: at the representable u16 dimensions 256 x 256 the
u16 product wraps to 0, so the freshly built buffer has 0 cells, not
256 * 256. -/
theorem buffer_len_cx :
    (Buffer.filled 256 256 Cell.default).content.length = 0
    ∧ (256 : Nat) * 256 ≠ 0 := by
  constructor
  · rfl
  · decide

/-- C8 (amended): the invariant cells.length = width * height holds for
empty, filled and resize whenever the u16 product width * height does not
overflow. -/
theorem buffer_len_amended (w h : Nat) (cell : Cell) (b : Buffer)
    (hwh : w * h < 65536) :
    (Buffer.filled w h cell).content.length = w * h
    ∧ (Buffer.empty w h).content.length = w * h
    ∧ (b.resize w h).content.length = w * h := by
  have hm : w * h % 65536 = w * h := Nat.mod_eq_of_lt hwh
  refine ⟨?_, ?_, ?_⟩ <;>
    simp [Buffer.filled, Buffer.empty, Buffer.resize, listResize_length, hm]

/-- Witness for buffer_len_amended at concrete dimensions. -/
theorem buffer_len_amended_witness :
    (2 : Nat) * 3 < 65536
    ∧ ((Buffer.filled 2 3 Cell.default).content.length = 2 * 3
      ∧ (Buffer.empty 2 3).content.length = 2 * 3
      ∧ ((Buffer.empty 1 1).resize 2 3).content.length = 2 * 3) :=
  ⟨by decide, buffer_len_amended 2 3 Cell.default (Buffer.empty 1 1) (by decide)⟩

/-! ### C3: Window::resize -/

/-- C3: at a concrete window, resize(10, 8) updates the area to (10, 8)
and invokes redraw, but resizes the interior grid to (10, 8) rather than
to (10 - 2, 8 - 2) as the constructor (and the spec) size it. -/
theorem window_resize_bug :
    ((Window.new [] ⟨0, 0, 10, 8⟩ (0 : Nat)).resize countingContent 10 8).area.width = 10
    ∧ ((Window.new [] ⟨0, 0, 10, 8⟩ (0 : Nat)).resize countingContent 10 8).area.height = 8
    ∧ ((Window.new [] ⟨0, 0, 10, 8⟩ (0 : Nat)).resize countingContent 10 8).content = 1
    ∧ ((Window.new [] ⟨0, 0, 10, 8⟩ (0 : Nat)).resize countingContent 10 8).buffer.width = 10
    ∧ ((Window.new [] ⟨0, 0, 10, 8⟩ (0 : Nat)).resize countingContent 10 8).buffer.height = 8
    ∧ ¬(((Window.new [] ⟨0, 0, 10, 8⟩ (0 : Nat)).resize countingContent 10 8).buffer.width = 10 - 2
        ∧ ((Window.new [] ⟨0, 0, 10, 8⟩ (0 : Nat)).resize countingContent 10 8).buffer.height = 8 - 2) := by
  refine ⟨rfl, rfl, rfl, rfl, rfl, ?_⟩
  intro h
  exact absurd h.1 (by decide)

/-! ### C2: ModifierDiff -/

/-- C2 counterexample: removing both blink bits emits a single no-blink
directive (not one per bit), and removing the hidden bit emits nothing at
all, so the queue does not emit exactly one disable directive per bit of
from AND NOT to. -/
theorem modifier_diff_queue_cx :
    (ModifierDiff.queue
        ⟨(Modifier.single ModFlag.slowBlink).union (Modifier.single ModFlag.rapidBlink),
          Modifier.empty⟩ = [Attr.NoBlink]
      ∧ (ModifierDiff.queue
          ⟨(Modifier.single ModFlag.slowBlink).union (Modifier.single ModFlag.rapidBlink),
            Modifier.empty⟩).length ≠ 2)
    ∧ (ModifierDiff.queue ⟨Modifier.single ModFlag.hidden, Modifier.empty⟩ = []
      ∧ (ModifierDiff.queue ⟨Modifier.single ModFlag.hidden, Modifier.empty⟩).length ≠ 1) := by
  refine ⟨⟨?_, ?_⟩, ⟨?_, ?_⟩⟩ <;> decide

/-- C2 (amended): the queue emits exactly the canonical directive list of
the amended claim for every pair of modifier sets; in particular it emits
nothing when from equals to, and it satisfies the two worked examples of
the spec (enable-dim only for BOLD to BOLD|DIM, and disable-bold followed
by re-enable-dim for BOLD|DIM to DIM). -/
theorem modifier_diff_queue_amended :
    (∀ fm tm : Modifier, ModifierDiff.queue ⟨fm, tm⟩ = canonicalDirectives fm tm)
    ∧ (∀ fm : Modifier, ModifierDiff.queue ⟨fm, fm⟩ = [])
    ∧ ModifierDiff.queue
        ⟨Modifier.single ModFlag.bold,
          (Modifier.single ModFlag.bold).union (Modifier.single ModFlag.dim)⟩ = [Attr.Dim]
    ∧ ModifierDiff.queue
        ⟨(Modifier.single ModFlag.bold).union (Modifier.single ModFlag.dim),
          Modifier.single ModFlag.dim⟩ = [Attr.NormalIntensity, Attr.Dim] := by
  refine ⟨?_, ?_, ?_, ?_⟩
  · intro fm tm
    simp only [ModifierDiff.queue, canonicalDirectives, List.singleton_append,
      List.append_assoc, List.cons_append, List.nil_append]
  · intro fm
    simp only [ModifierDiff.queue, Modifier.difference_self, Modifier.empty]
    simp
  · decide
  · decide

/-! ### C1: Buffer.diff -/

theorem filterMap_ite {α β : Type} (p : α → Prop) [DecidablePred p] (g : α → β) (l : List α) :
    l.filterMap (fun a => if p a then some (g a) else none)
      = (l.filter fun a => decide (p a)).map g := by
  induction l with
  | nil => rfl
  | cons x xs ih => by_cases h : p x <;> simp [h, ih]

/-- C1: for equally sized well-formed buffers, diff is exactly the list of
row-major coordinates and second-buffer cells at the indices where the
cells differ, in ascending index order; and diff of any buffer against
itself is empty. -/
theorem buffer_diff_spec (A B : Buffer)
    (hw : A.width = B.width) (hh : A.height = B.height)
    (harea : A.width * A.height < 65536)
    (hlenA : A.content.length = A.width * A.height)
    (hlenB : B.content.length = B.width * B.height) :
    (A.diff B =
      ((List.range (A.width * A.height)).filter fun i =>
        decide (A.content.getD i Cell.default ≠ B.content.getD i Cell.default)).map
        (fun i => (i % B.width, i / B.width, B.content.getD i Cell.default)))
    ∧ (∀ C : Buffer, C.diff C = []) := by
  constructor
  · unfold Buffer.diff Buffer.area
    rw [Nat.mod_eq_of_lt harea]
    rw [filterMap_ite
      (fun i => A.content.getD i Cell.default ≠ B.content.getD i Cell.default)
      (fun i => (i % 65536 % B.width, i % 65536 / B.width, B.content.getD i Cell.default))]
    apply List.map_congr_left
    intro i hi
    have hir : i < A.width * A.height := List.mem_range.mp (List.mem_filter.mp hi).1
    have h65 : i < 65536 := by omega
    rw [Nat.mod_eq_of_lt h65]
  · intro C
    unfold Buffer.diff
    simp

/-- Witness for buffer_diff_spec at concrete buffers differing in one cell. -/
theorem buffer_diff_spec_witness :
    (diffBufA.width = diffBufB.width ∧ diffBufA.height = diffBufB.height
      ∧ diffBufA.width * diffBufA.height < 65536
      ∧ diffBufA.content.length = diffBufA.width * diffBufA.height
      ∧ diffBufB.content.length = diffBufB.width * diffBufB.height)
    ∧ ((diffBufA.diff diffBufB =
        ((List.range (diffBufA.width * diffBufA.height)).filter fun i =>
          decide (diffBufA.content.getD i Cell.default ≠ diffBufB.content.getD i Cell.default)).map
          (fun i => (i % diffBufB.width, i / diffBufB.width, diffBufB.content.getD i Cell.default)))
      ∧ (∀ C : Buffer, C.diff C = [])) :=
  ⟨⟨rfl, rfl, by decide, by decide, by decide⟩,
    buffer_diff_spec diffBufA diffBufB rfl rfl (by decide) (by decide) (by decide)⟩

/-! ### C4: the double buffer swap -/

/-- C4: a completed frame toggles the current index between 0 and 1 (two
frames restore it), and immediately after the swap the newly current grid
consists entirely of default cells. -/
theorem window_manager_frame (m : WindowManager) (hc : m.current = 0 ∨ m.current = 1) :
    m.frame.current = 1 - m.current
    ∧ m.frame.frame.current = m.current
    ∧ (∀ c ∈ (m.frame.buf m.frame.current).content, c = Cell.default) := by
  refine ⟨rfl, ?_, ?_⟩
  · show 1 - (1 - m.current) = m.current
    omega
  · rcases hc with h | h
    · intro c hcmem
      simp [WindowManager.frame, WindowManager.draw_windows, WindowManager.swap_buffers,
        WindowManager.buf, Buffer.reset, h] at hcmem
      obtain ⟨a, _, ha⟩ := hcmem
      exact ha.symm
    · intro c hcmem
      simp [WindowManager.frame, WindowManager.draw_windows, WindowManager.swap_buffers,
        WindowManager.buf, Buffer.reset, h] at hcmem
      obtain ⟨a, _, ha⟩ := hcmem
      exact ha.symm

/-- Witness for window_manager_frame at a concrete manager. -/
theorem window_manager_frame_witness :
    (wmW.current = 0 ∨ wmW.current = 1)
    ∧ (wmW.frame.current = 1 - wmW.current
      ∧ wmW.frame.frame.current = wmW.current
      ∧ (∀ c ∈ (wmW.frame.buf wmW.frame.current).content, c = Cell.default)) :=
  ⟨Or.inl rfl, window_manager_frame wmW (Or.inl rfl)⟩

/-! ### C5: set_stringn truncation -/

/-- C5: set_stringn preserves the cell count, never modifies any cell at a
column at or beyond min(width, x + n), and stops entirely at the first
grapheme that does not fit in the remaining space: the whole call equals
the call on the preceding graphemes alone, so the too-wide grapheme is
neither split nor placed at all and nothing after it is placed either; in
particular, when already the first grapheme does not fit, the buffer and
the cursor come back unchanged. -/
theorem set_stringn_truncation (b : Buffer) (x y n : Nat) (gs : List Grapheme) (st : Style)
    (hx : x < b.width) (hy : y < b.height) (harea : b.width * b.height < 65536) :
    ((b.set_stringn x y gs n st).1).content.length = b.content.length
    ∧ (∀ i d, min b.width (x + n) ≤ i % b.width →
        ((b.set_stringn x y gs n st).1).content.getD i d = b.content.getD i d)
    ∧ (∀ gs1 g rest, gs = gs1 ++ g :: rest →
        min b.width (x + n) - (x + (gs1.map Grapheme.gwidth).sum) < g.gwidth →
        b.set_stringn x y gs n st = b.set_stringn x y gs1 n st)
    ∧ (∀ g rest, gs = g :: rest →
        min b.width (x + n) - x < g.gwidth →
        b.set_stringn x y gs n st = (b, x % 65536, y)) := by
  refine ⟨sset_length b x y n gs st, ?_, ?_, ?_⟩
  · intro i d hcol
    apply sset_getD_notouch b x y n gs st i d
      (lt_trans (idx_lt y x b.width b.height hx hy) harea)
    rw [Nat.add_comm x n] at hcol
    exact Or.inr (Or.inl hcol)
  · intro gs1 g rest hgs hstop
    subst hgs
    rw [Nat.add_comm x n] at hstop
    simp only [Buffer.set_stringn]
    rw [setStringGo_stop gs1 g rest b.content (b.index_of x y) x
      (min b.width (n + x)) st hstop]
  · intro g rest hgs hstop
    subst hgs
    exact sset_nofit b x y n g rest st (by omega) (by omega)

/-- Witness for set_stringn_truncation: a full-width glyph reaching the
last single-width slot of a 4 x 1 buffer, followed by a narrower glyph.
The stop hypotheses hold already at the first grapheme, so the whole call
leaves the buffer and the cursor unchanged. -/
theorem set_stringn_truncation_witness :
    (3 < (Buffer.empty 4 1).width ∧ 0 < (Buffer.empty 4 1).height
      ∧ (Buffer.empty 4 1).width * (Buffer.empty 4 1).height < 65536)
    ∧ (((Buffer.empty 4 1).set_stringn 3 0 [wideG, narrowG] 5 Style.new).1.content.length
          = (Buffer.empty 4 1).content.length
      ∧ (∀ i d, min (Buffer.empty 4 1).width (3 + 5) ≤ i % (Buffer.empty 4 1).width →
          ((Buffer.empty 4 1).set_stringn 3 0 [wideG, narrowG] 5 Style.new).1.content.getD i d
            = (Buffer.empty 4 1).content.getD i d)
      ∧ (∀ gs1 g rest, [wideG, narrowG] = gs1 ++ g :: rest →
          min (Buffer.empty 4 1).width (3 + 5) - (3 + (gs1.map Grapheme.gwidth).sum) < g.gwidth →
          (Buffer.empty 4 1).set_stringn 3 0 [wideG, narrowG] 5 Style.new
            = (Buffer.empty 4 1).set_stringn 3 0 gs1 5 Style.new)
      ∧ (∀ g rest, [wideG, narrowG] = g :: rest →
          min (Buffer.empty 4 1).width (3 + 5) - 3 < g.gwidth →
          (Buffer.empty 4 1).set_stringn 3 0 [wideG, narrowG] 5 Style.new
            = (Buffer.empty 4 1, 3 % 65536, 0))) :=
  ⟨⟨by decide, by decide, by decide⟩,
    set_stringn_truncation (Buffer.empty 4 1) 3 0 5 [wideG, narrowG] Style.new
      (by decide) (by decide) (by decide)⟩

/-! ### C6: wide grapheme placement -/

theorem foldlSet_getD_ne_const (ks : List Nat) (v : Cell) (acc : List Cell) (i : Nat) (d : Cell)
    (h : ∀ k ∈ ks, k ≠ i) :
    (ks.foldl (fun a k => a.set k v) acc).getD i d = acc.getD i d :=
  foldlSet_getD_ne ks (fun k => k) (fun _ => v) acc i d h

/-- C6: a grapheme of width w placed with room at an in-bounds (x, y)
leaves the cell at (x, y) holding the full grapheme with the style
applied, and the following w - 1 cells reset to the default cell. -/
theorem wide_grapheme_placement (b : Buffer) (x y : Nat) (g : Grapheme) (st : Style)
    (hg : 0 < g.gwidth) (hroom : x + g.gwidth ≤ b.width) (hy : y < b.height)
    (hlen : b.content.length = b.width * b.height)
    (harea : b.width * b.height < 65536) :
    ((b.set_string x y [g] st).1).content.getD (y * b.width + x) Cell.default
      = ((b.content.getD (y * b.width + x) Cell.default).set_symbol g.sym).set_style st
    ∧ (∀ j, 1 ≤ j → j < g.gwidth →
        ((b.set_string x y [g] st).1).content.getD (y * b.width + x + j) Cell.default
          = Cell.default) := by
  have hW : 0 < b.width := by omega
  have hx : x < b.width := by omega
  have hxy : y * b.width + x < 65536 := lt_trans (idx_lt y x b.width b.height hx hy) harea
  have hWle : b.width ≤ b.width * b.height := Nat.le_mul_of_pos_right _ (by omega)
  have hmin : min b.width (usizeMax + x) = b.width := by
    apply Nat.min_eq_left
    unfold usizeMax
    omega
  have hfit : x + g.gwidth ≤ min b.width (usizeMax + x) := by omega
  unfold Buffer.set_string
  rw [sset_single b x y usizeMax g st hg hxy hfit]
  have hshape : (fun (acc : List Cell) (k : Nat) =>
        acc.set k (Cell.resetCell (acc.getD k Cell.default)))
      = fun acc k => acc.set k Cell.default := rfl
  have hidxlen : y * b.width + x < b.content.length := by
    rw [hlen]
    exact idx_lt y x b.width b.height hx hy
  constructor
  · show ((List.range' (y * b.width + x + 1) (g.gwidth - 1)).foldl
        (fun acc k => acc.set k (Cell.resetCell (acc.getD k Cell.default)))
        (modifyAt b.content (y * b.width + x)
          fun c => (c.set_symbol g.sym).set_style st)).getD (y * b.width + x) Cell.default
      = ((b.content.getD (y * b.width + x) Cell.default).set_symbol g.sym).set_style st
    rw [hshape]
    rw [foldlSet_getD_ne_const _ _ _ _ _ ?notouch]
    case notouch =>
      intro k hk
      rw [List.mem_range'_1] at hk
      omega
    exact getD_set_self _ _ _ _ hidxlen
  · intro j h1 hj
    show ((List.range' (y * b.width + x + 1) (g.gwidth - 1)).foldl
        (fun acc k => acc.set k (Cell.resetCell (acc.getD k Cell.default)))
        (modifyAt b.content (y * b.width + x)
          fun c => (c.set_symbol g.sym).set_style st)).getD (y * b.width + x + j) Cell.default
      = Cell.default
    rw [hshape]
    apply foldlSet_getD_mem
    · rw [List.mem_range'_1]
      omega
    · rw [modifyAt_length, hlen]
      have hcol : x + j < b.width := by omega
      have := idx_lt y (x + j) b.width b.height hcol hy
      omega

/-- Witness for wide_grapheme_placement: the 2-column glyph at (0, 0) of a
3 x 1 buffer. -/
theorem wide_grapheme_placement_witness :
    (0 < wideG.gwidth ∧ 0 + wideG.gwidth ≤ (Buffer.empty 3 1).width
      ∧ 0 < (Buffer.empty 3 1).height
      ∧ (Buffer.empty 3 1).content.length = (Buffer.empty 3 1).width * (Buffer.empty 3 1).height
      ∧ (Buffer.empty 3 1).width * (Buffer.empty 3 1).height < 65536)
    ∧ (((Buffer.empty 3 1).set_string 0 0 [wideG] Style.new).1.content.getD
          (0 * (Buffer.empty 3 1).width + 0) Cell.default
        = (((Buffer.empty 3 1).content.getD (0 * (Buffer.empty 3 1).width + 0)
            Cell.default).set_symbol wideG.sym).set_style Style.new
      ∧ (∀ j, 1 ≤ j → j < wideG.gwidth →
          ((Buffer.empty 3 1).set_string 0 0 [wideG] Style.new).1.content.getD
            (0 * (Buffer.empty 3 1).width + 0 + j) Cell.default = Cell.default)) :=
  ⟨⟨by decide, by decide, by decide, by decide, by decide⟩,
    wide_grapheme_placement (Buffer.empty 3 1) 0 0 wideG Style.new
      (by decide) (by decide) (by decide) (by decide) (by decide)⟩

/-! ### Fold lemmas for the border loops -/

theorem hbar_fold_width (ks : List Nat) (ax rowy : Nat) (g : Grapheme) (st : Style) (b : Buffer) :
    ((ks.foldl (fun bb k => (bb.set_stringn (ax + k) rowy [g] 1 st).1) b).width) = b.width := by
  induction ks generalizing b with
  | nil => rfl
  | cons k ks ih =>
    simp only [List.foldl_cons]
    rw [ih]
    exact sset_width _ _ _ _ _ _

theorem hbar_fold_height (ks : List Nat) (ax rowy : Nat) (g : Grapheme) (st : Style) (b : Buffer) :
    ((ks.foldl (fun bb k => (bb.set_stringn (ax + k) rowy [g] 1 st).1) b).height) = b.height := by
  induction ks generalizing b with
  | nil => rfl
  | cons k ks ih =>
    simp only [List.foldl_cons]
    rw [ih]
    exact sset_height _ _ _ _ _ _

theorem hbar_fold_length (ks : List Nat) (ax rowy : Nat) (g : Grapheme) (st : Style) (b : Buffer) :
    ((ks.foldl (fun bb k => (bb.set_stringn (ax + k) rowy [g] 1 st).1) b).content.length)
      = b.content.length := by
  induction ks generalizing b with
  | nil => rfl
  | cons k ks ih =>
    simp only [List.foldl_cons]
    rw [ih, sset_length]

theorem vbar_fold_width (ks : List Nat) (colx ay0 : Nat) (g : Grapheme) (st : Style) (b : Buffer) :
    ((ks.foldl (fun bb k => (bb.set_stringn colx (ay0 + k) [g] 1 st).1) b).width) = b.width := by
  induction ks generalizing b with
  | nil => rfl
  | cons k ks ih =>
    simp only [List.foldl_cons]
    rw [ih]
    exact sset_width _ _ _ _ _ _

theorem vbar_fold_height (ks : List Nat) (colx ay0 : Nat) (g : Grapheme) (st : Style) (b : Buffer) :
    ((ks.foldl (fun bb k => (bb.set_stringn colx (ay0 + k) [g] 1 st).1) b).height) = b.height := by
  induction ks generalizing b with
  | nil => rfl
  | cons k ks ih =>
    simp only [List.foldl_cons]
    rw [ih]
    exact sset_height _ _ _ _ _ _

theorem vbar_fold_length (ks : List Nat) (colx ay0 : Nat) (g : Grapheme) (st : Style) (b : Buffer) :
    ((ks.foldl (fun bb k => (bb.set_stringn colx (ay0 + k) [g] 1 st).1) b).content.length)
      = b.content.length := by
  induction ks generalizing b with
  | nil => rfl
  | cons k ks ih =>
    simp only [List.foldl_cons]
    rw [ih, sset_length]

theorem hbar_fold_getD_ne (ks : List Nat) (ax rowy : Nat) (g : Grapheme) (st : Style)
    (b : Buffer) (i : Nat) (d : Cell)
    (hb : ∀ k ∈ ks, rowy * b.width + (ax + k) < 65536)
    (hi : ∀ k ∈ ks, i % b.width ≠ ax + k ∨ i / b.width ≠ rowy) :
    ((ks.foldl (fun bb k => (bb.set_stringn (ax + k) rowy [g] 1 st).1) b).content.getD i d)
      = b.content.getD i d := by
  induction ks generalizing b with
  | nil => rfl
  | cons k ks ih =>
    simp only [List.foldl_cons]
    rw [ih ((b.set_stringn (ax + k) rowy [g] 1 st).1)
      (fun k2 hk2 => hb k2 (List.mem_cons_of_mem _ hk2))
      (fun k2 hk2 => hi k2 (List.mem_cons_of_mem _ hk2))]
    exact sset1_getD_ne b (ax + k) rowy g st i d (hb k (List.mem_cons_self k ks))
      (hi k (List.mem_cons_self k ks))

theorem vbar_fold_getD_ne (ks : List Nat) (colx ay0 : Nat) (g : Grapheme) (st : Style)
    (b : Buffer) (i : Nat) (d : Cell)
    (hb : ∀ k ∈ ks, (ay0 + k) * b.width + colx < 65536)
    (hi : ∀ k ∈ ks, i % b.width ≠ colx ∨ i / b.width ≠ ay0 + k) :
    ((ks.foldl (fun bb k => (bb.set_stringn colx (ay0 + k) [g] 1 st).1) b).content.getD i d)
      = b.content.getD i d := by
  induction ks generalizing b with
  | nil => rfl
  | cons k ks ih =>
    simp only [List.foldl_cons]
    rw [ih ((b.set_stringn colx (ay0 + k) [g] 1 st).1)
      (fun k2 hk2 => hb k2 (List.mem_cons_of_mem _ hk2))
      (fun k2 hk2 => hi k2 (List.mem_cons_of_mem _ hk2))]
    exact sset1_getD_ne b colx (ay0 + k) g st i d (hb k (List.mem_cons_self k ks))
      (hi k (List.mem_cons_self k ks))

/-! ### Dimension lemmas for the border sections -/

theorem top_width (b : Buffer) (area : Rect) (title : List Grapheme) :
    (draw_border_top b area title).width = b.width := by
  simp only [draw_border_top, sset_width, hbar_fold_width]

theorem top_height (b : Buffer) (area : Rect) (title : List Grapheme) :
    (draw_border_top b area title).height = b.height := by
  simp only [draw_border_top, sset_height, hbar_fold_height]

theorem top_length (b : Buffer) (area : Rect) (title : List Grapheme) :
    (draw_border_top b area title).content.length = b.content.length := by
  simp only [draw_border_top, sset_length, hbar_fold_length, sset_width]

theorem sides_width (b : Buffer) (area : Rect) (info : ContentInfo) :
    (draw_border_sides b area info).width = b.width := by
  simp only [draw_border_sides]
  split <;> simp only [sset_width, vbar_fold_width]

theorem sides_height (b : Buffer) (area : Rect) (info : ContentInfo) :
    (draw_border_sides b area info).height = b.height := by
  simp only [draw_border_sides]
  split <;> simp only [sset_height, vbar_fold_height]

theorem sides_length (b : Buffer) (area : Rect) (info : ContentInfo) :
    (draw_border_sides b area info).content.length = b.content.length := by
  simp only [draw_border_sides]
  split <;> simp only [sset_length, vbar_fold_length]

theorem bottom_width (b : Buffer) (area : Rect) :
    (draw_border_bottom b area).width = b.width := by
  simp only [draw_border_bottom, sset_width, hbar_fold_width]

theorem bottom_height (b : Buffer) (area : Rect) :
    (draw_border_bottom b area).height = b.height := by
  simp only [draw_border_bottom, sset_height, hbar_fold_height]

theorem bottom_length (b : Buffer) (area : Rect) :
    (draw_border_bottom b area).content.length = b.content.length := by
  simp only [draw_border_bottom, sset_length, hbar_fold_length]

/-! ### Touch lemmas for the border sections -/

/-- The top edge writes only on row area.y. -/
theorem top_getD_ne (b : Buffer) (area : Rect) (title : List Grapheme) (i : Nat) (d : Cell)
    (hax : area.x + area.width ≤ b.width) (haw : 1 ≤ area.width)
    (hrow : area.y < b.height) (harea : b.width * b.height < 65536)
    (hi : i / b.width ≠ area.y) :
    (draw_border_top b area title).content.getD i d = b.content.getD i d := by
  have hb65 : ∀ c, c ≤ b.width → area.y * b.width + c < 65536 := by
    intro c hc
    have h1 : (area.y + 1) * b.width = area.y * b.width + b.width := by ring
    have h2 : (area.y + 1) * b.width ≤ b.height * b.width :=
      Nat.mul_le_mul_right _ (by omega)
    have h3 : b.height * b.width = b.width * b.height := Nat.mul_comm _ _
    omega
  simp only [draw_border_top]
  set L := min (titleBytes title) (area.width - 2) with hL
  set S1 := (b.set_stringn area.x area.y [cornerTL] 1 Style.new).1 with hS1
  set S2 := (S1.set_stringn (area.x + 1) area.y title L Style.new).1 with hS2
  set S3 := (List.range' (L + 1) (area.width - 1 - (L + 1))).foldl
    (fun bb k => (bb.set_stringn (area.x + k) area.y [hbar] 1 Style.new).1) S2 with hS3
  have hW1 : S1.width = b.width := by rw [hS1]; exact sset_width _ _ _ _ _ _
  have hW2 : S2.width = b.width := by rw [hS2, sset_width, hW1]
  have hW3 : S3.width = b.width := by rw [hS3, hbar_fold_width, hW2]
  rw [sset1_getD_ne S3 (area.x + area.width - 1) area.y cornerTR Style.new i d
    (by rw [hW3]; exact hb65 _ (by omega)) (Or.inr (by rw [hW3]; exact hi))]
  rw [hS3, hbar_fold_getD_ne _ area.x area.y hbar Style.new S2 i d
    (by intro k hk
        rw [List.mem_range'_1] at hk
        rw [hW2]
        exact hb65 _ (by omega))
    (by intro k hk
        exact Or.inr (by rw [hW2]; exact hi))]
  rw [hS2, sset_getD_notouch S1 (area.x + 1) area.y L title Style.new i d
    (by rw [hW1]; exact hb65 _ (by omega)) (Or.inr (Or.inr (by rw [hW1]; exact hi)))]
  rw [hS1, sset1_getD_ne b area.x area.y cornerTL Style.new i d
    (hb65 _ (by omega)) (Or.inr hi)]

/-- The thumb offset floor((h - 4) * fr) is at most h - 4 when the
fraction lies in the unit interval. -/
theorem thumb_pos_le (ah : Nat) (fr : Rat) (hfr0 : 0 ≤ fr) (hfr1 : fr ≤ 1) :
    ((((ah - 4 : Nat) : Rat)) * fr).floor.toNat ≤ ah - 4 := by
  have h0 : (0 : Rat) ≤ ((ah - 4 : Nat) : Rat) := Nat.cast_nonneg _
  have hq : (((ah - 4 : Nat) : Rat)) * fr ≤ ((ah - 4 : Nat) : Rat) :=
    mul_le_of_le_one_right h0 hfr1
  have hfl : (((ah - 4 : Nat) : Rat) * fr).floor ≤ ((ah - 4 : Nat) : Int) := by
    by_contra hcon
    push_neg at hcon
    have h1 : ((ah - 4 : Nat) : Int) + 1 ≤ (((ah - 4 : Nat) : Rat) * fr).floor := hcon
    have h2 := Rat.le_floor.mp h1
    push_cast at h2
    linarith
  rw [Int.toNat_le]
  exact hfl

/-- The side edges write only on rows strictly between area.y and
area.y + area.height, in columns area.x and area.x + area.width - 1. -/
theorem sides_getD_ne (b : Buffer) (area : Rect) (info : ContentInfo) (i : Nat) (d : Cell)
    (hax : area.x + area.width ≤ b.width) (haw : 1 ≤ area.width)
    (hrowH : area.y + area.height ≤ b.height)
    (harea : b.width * b.height < 65536)
    (hsc : info.scroll = true → 4 ≤ area.height ∧ 0 ≤ info.scroll_pos ∧ info.scroll_pos ≤ 1)
    (hi : i / b.width ≤ area.y ∨ area.y + area.height ≤ i / b.width ∨
      (i % b.width ≠ area.x ∧ i % b.width ≠ area.x + area.width - 1)) :
    (draw_border_sides b area info).content.getD i d = b.content.getD i d := by
  have hb65 : ∀ r c, r < area.y + area.height → c ≤ b.width → r * b.width + c < 65536 := by
    intro r c hr hc
    have h1 : (r + 1) * b.width = r * b.width + b.width := by ring
    have h2 : (r + 1) * b.width ≤ b.height * b.width :=
      Nat.mul_le_mul_right _ (by omega)
    have h3 : b.height * b.width = b.width * b.height := Nat.mul_comm _ _
    omega
  simp only [draw_border_sides]
  set M1 := (List.range' 1 (area.height - 1)).foldl
    (fun bb k => (bb.set_stringn area.x (area.y + k) [vbar] 1 Style.new).1) b with hM1
  have hWM1 : M1.width = b.width := by rw [hM1, vbar_fold_width]
  have hM1p : M1.content.getD i d = b.content.getD i d := by
    rw [hM1, vbar_fold_getD_ne _ area.x area.y vbar Style.new b i d
      (by intro k hk
          rw [List.mem_range'_1] at hk
          exact hb65 _ _ (by omega) (by omega))
      (by intro k hk
          rw [List.mem_range'_1] at hk
          rcases hi with h | h | h
          · exact Or.inr (by omega)
          · exact Or.inr (by omega)
          · exact Or.inl h.1)]
  by_cases hscb : info.scroll = true
  · rw [if_pos hscb]
    obtain ⟨hh4, hfr0, hfr1⟩ := hsc hscb
    have hpos := thumb_pos_le area.height info.scroll_pos hfr0 hfr1
    set M2 := (M1.set_stringn (area.x + area.width - 1) (area.y + 1) [upArrow] 1 Style.new).1
      with hM2
    set M3 := (M2.set_stringn (area.x + area.width - 1) (area.y + area.height - 1)
      [downArrow] 1 Style.new).1 with hM3
    set M4 := (List.range' 2 (area.height - 1 - 2)).foldl
      (fun bb k => (bb.set_stringn (area.x + area.width - 1) (area.y + k)
        [trackGlyph] 1 Style.new).1) M3 with hM4
    have hWM2 : M2.width = b.width := by rw [hM2, sset_width, hWM1]
    have hWM3 : M3.width = b.width := by rw [hM3, sset_width, hWM2]
    have hWM4 : M4.width = b.width := by rw [hM4, vbar_fold_width, hWM3]
    rw [sset1_getD_ne M4 (area.x + area.width - 1)
      (area.y + 2 + (((area.height - 4 : Nat) : Rat) * info.scroll_pos).floor.toNat)
      thumbGlyph Style.new i d
      (by rw [hWM4]; exact hb65 _ _ (by omega) (by omega))
      (by rcases hi with h | h | h
          · exact Or.inr (by rw [hWM4]; omega)
          · exact Or.inr (by rw [hWM4]; omega)
          · exact Or.inl (by rw [hWM4]; exact h.2))]
    rw [hM4, vbar_fold_getD_ne _ (area.x + area.width - 1) area.y trackGlyph Style.new M3 i d
      (by intro k hk
          rw [List.mem_range'_1] at hk
          rw [hWM3]
          exact hb65 _ _ (by omega) (by omega))
      (by intro k hk
          rw [List.mem_range'_1] at hk
          rcases hi with h | h | h
          · exact Or.inr (by rw [hWM3]; omega)
          · exact Or.inr (by rw [hWM3]; omega)
          · exact Or.inl (by rw [hWM3]; exact h.2))]
    rw [hM3, sset1_getD_ne M2 (area.x + area.width - 1) (area.y + area.height - 1)
      downArrow Style.new i d
      (by rw [hWM2]; exact hb65 _ _ (by omega) (by omega))
      (by rcases hi with h | h | h
          · exact Or.inr (by rw [hWM2]; omega)
          · exact Or.inr (by rw [hWM2]; omega)
          · exact Or.inl (by rw [hWM2]; exact h.2))]
    rw [hM2, sset1_getD_ne M1 (area.x + area.width - 1) (area.y + 1) upArrow Style.new i d
      (by rw [hWM1]; exact hb65 _ _ (by omega) (by omega))
      (by rcases hi with h | h | h
          · exact Or.inr (by rw [hWM1]; omega)
          · exact Or.inr (by rw [hWM1]; omega)
          · exact Or.inl (by rw [hWM1]; exact h.2))]
    exact hM1p
  · rw [if_neg hscb]
    rw [vbar_fold_getD_ne _ (area.x + area.width - 1) area.y vbar Style.new M1 i d
      (by intro k hk
          rw [List.mem_range'_1] at hk
          rw [hWM1]
          exact hb65 _ _ (by omega) (by omega))
      (by intro k hk
          rw [List.mem_range'_1] at hk
          rcases hi with h | h | h
          · exact Or.inr (by rw [hWM1]; omega)
          · exact Or.inr (by rw [hWM1]; omega)
          · exact Or.inl (by rw [hWM1]; exact h.2))]
    exact hM1p

/-- The bottom edge writes only on row area.y + area.height. -/
theorem bottom_getD_ne (b : Buffer) (area : Rect) (i : Nat) (d : Cell)
    (hax : area.x + area.width ≤ b.width) (haw : 1 ≤ area.width)
    (hrowb : area.y + area.height < b.height) (harea : b.width * b.height < 65536)
    (hi : i / b.width ≠ area.y + area.height) :
    (draw_border_bottom b area).content.getD i d = b.content.getD i d := by
  have hb65 : ∀ c, c ≤ b.width → (area.y + area.height) * b.width + c < 65536 := by
    intro c hc
    have h1 : (area.y + area.height + 1) * b.width
        = (area.y + area.height) * b.width + b.width := by ring
    have h2 : (area.y + area.height + 1) * b.width ≤ b.height * b.width :=
      Nat.mul_le_mul_right _ (by omega)
    have h3 : b.height * b.width = b.width * b.height := Nat.mul_comm _ _
    omega
  simp only [draw_border_bottom]
  set B1 := (b.set_stringn area.x (area.y + area.height) [cornerBL] 1 Style.new).1 with hB1
  set B2 := (List.range' 1 (area.width - 1 - 1)).foldl
    (fun bb k => (bb.set_stringn (area.x + k) (area.y + area.height) [hbar] 1 Style.new).1) B1
    with hB2
  have hWB1 : B1.width = b.width := by rw [hB1]; exact sset_width _ _ _ _ _ _
  have hWB2 : B2.width = b.width := by rw [hB2, hbar_fold_width, hWB1]
  rw [sset1_getD_ne B2 (area.x + area.width - 1) (area.y + area.height) cornerBR Style.new i d
    (by rw [hWB2]; exact hb65 _ (by omega)) (Or.inr (by rw [hWB2]; exact hi))]
  rw [hB2, hbar_fold_getD_ne _ area.x (area.y + area.height) hbar Style.new B1 i d
    (by intro k hk
        rw [List.mem_range'_1] at hk
        rw [hWB1]
        exact hb65 _ (by omega))
    (by intro k hk
        exact Or.inr (by rw [hWB1]; exact hi))]
  rw [hB1, sset1_getD_ne b area.x (area.y + area.height) cornerBL Style.new i d
    (hb65 _ (by omega)) (Or.inr hi)]

/-! ### Value lemmas for the border sections -/

/-- With a scrollbar requested, the side edges leave the thumb glyph at
row area.y + 2 + floor((area.height - 4) * scroll_pos), in the right
border column. -/
theorem sides_thumb (b : Buffer) (area : Rect) (info : ContentInfo) (W H : Nat)
    (hbW : b.width = W) (hbH : b.height = H)
    (hscb : info.scroll = true)
    (hax : area.x + area.width ≤ W) (haw : 1 ≤ area.width)
    (hrowH : area.y + area.height ≤ H) (hh4 : 4 ≤ area.height)
    (hfr0 : 0 ≤ info.scroll_pos) (hfr1 : info.scroll_pos ≤ 1)
    (hlen : b.content.length = W * H) (harea : W * H < 65536) :
    ((draw_border_sides b area info).content.getD
        ((area.y + 2 + (((area.height - 4 : Nat) : Rat) * info.scroll_pos).floor.toNat)
          * W + (area.x + area.width - 1)) Cell.default).symbol = "█" := by
  have hpos := thumb_pos_le area.height info.scroll_pos hfr0 hfr1
  simp only [draw_border_sides]
  rw [if_pos hscb]
  set M1 := (List.range' 1 (area.height - 1)).foldl
    (fun bb k => (bb.set_stringn area.x (area.y + k) [vbar] 1 Style.new).1) b with hM1
  set M2 := (M1.set_stringn (area.x + area.width - 1) (area.y + 1) [upArrow] 1 Style.new).1
    with hM2
  set M3 := (M2.set_stringn (area.x + area.width - 1) (area.y + area.height - 1)
    [downArrow] 1 Style.new).1 with hM3
  set M4 := (List.range' 2 (area.height - 1 - 2)).foldl
    (fun bb k => (bb.set_stringn (area.x + area.width - 1) (area.y + k)
      [trackGlyph] 1 Style.new).1) M3 with hM4
  have hWM1 : M1.width = W := by rw [hM1, vbar_fold_width, hbW]
  have hWM2 : M2.width = W := by rw [hM2, sset_width, hWM1]
  have hWM3 : M3.width = W := by rw [hM3, sset_width, hWM2]
  have hWM4 : M4.width = W := by rw [hM4, vbar_fold_width, hWM3]
  have hLM4 : M4.content.length = W * H := by
    rw [hM4, vbar_fold_length, hM3, sset_length, hM2, sset_length, hM1, vbar_fold_length, hlen]
  have hv := sset1_getD_self M4 (area.x + area.width - 1)
    (area.y + 2 + (((area.height - 4 : Nat) : Rat) * info.scroll_pos).floor.toNat)
    thumbGlyph Style.new Cell.default rfl
    (by rw [hWM4]; omega)
    (by rw [hWM4]
        exact lt_trans (idx_lt _ _ _ _ (by omega) (by omega)) harea)
    (by rw [hWM4, hLM4]
        exact idx_lt _ _ _ _ (by omega) (by omega))
  rw [hWM4] at hv
  rw [hv]
  rfl

/-- The top edge leaves the top-left corner glyph at (area.x, area.y). -/
theorem top_corner (b : Buffer) (area : Rect) (title : List Grapheme) (W H : Nat)
    (hbW : b.width = W) (hbH : b.height = H)
    (hax : area.x + area.width ≤ W) (haw : 2 ≤ area.width)
    (hrow : area.y < H)
    (hlen : b.content.length = W * H) (harea : W * H < 65536) :
    ((draw_border_top b area title).content.getD (area.y * W + area.x) Cell.default).symbol
      = "╭" := by
  have haxW : area.x < W := by omega
  have hidx65 : area.y * W + area.x < 65536 :=
    lt_trans (idx_lt _ _ _ _ haxW hrow) harea
  have hm : (area.y * W + area.x) % W = area.x := rowcol_mod _ _ _ haxW
  have hd : (area.y * W + area.x) / W = area.y := rowcol_div _ _ _ haxW
  simp only [draw_border_top]
  set L := min (titleBytes title) (area.width - 2) with hL
  set S1 := (b.set_stringn area.x area.y [cornerTL] 1 Style.new).1 with hS1
  set S2 := (S1.set_stringn (area.x + 1) area.y title L Style.new).1 with hS2
  set S3 := (List.range' (L + 1) (area.width - 1 - (L + 1))).foldl
    (fun bb k => (bb.set_stringn (area.x + k) area.y [hbar] 1 Style.new).1) S2 with hS3
  have hW1 : S1.width = W := by rw [hS1, sset_width, hbW]
  have hW2 : S2.width = W := by rw [hS2, sset_width, hW1]
  have hW3 : S3.width = W := by rw [hS3, hbar_fold_width, hW2]
  rw [sset1_getD_ne S3 (area.x + area.width - 1) area.y cornerTR Style.new _ Cell.default
    (by rw [hW3]
        exact lt_trans (idx_lt _ _ _ _ (by omega) hrow) harea)
    (Or.inl (by rw [hW3, hm]; omega))]
  rw [hS3, hbar_fold_getD_ne _ area.x area.y hbar Style.new S2 _ Cell.default
    (by intro k hk
        rw [List.mem_range'_1] at hk
        rw [hW2]
        exact lt_trans (idx_lt _ _ _ _ (by omega) hrow) harea)
    (by intro k hk
        rw [List.mem_range'_1] at hk
        exact Or.inl (by rw [hW2, hm]; omega))]
  rw [hS2, sset_getD_notouch S1 (area.x + 1) area.y L title Style.new _ Cell.default
    (by rw [hW1]
        exact lt_trans (idx_lt _ _ _ _ (by omega) hrow) harea)
    (Or.inl (by rw [hW1, hm]; omega))]
  have hv := sset1_getD_self b area.x area.y cornerTL Style.new Cell.default rfl
    (by omega) (by rw [hbW]; exact hidx65)
    (by rw [hlen, hbW]; exact idx_lt _ _ _ _ haxW hrow)
  rw [hbW] at hv
  rw [hS1, hv]
  rfl

/-- The bottom edge leaves the corner glyphs at columns area.x and
area.x + area.width - 1 of row area.y + area.height. -/
theorem bottom_corners (b : Buffer) (area : Rect) (W H : Nat)
    (hbW : b.width = W) (hbH : b.height = H)
    (hax : area.x + area.width ≤ W) (haw : 2 ≤ area.width)
    (hrowb : area.y + area.height < H)
    (hlen : b.content.length = W * H) (harea : W * H < 65536) :
    ((draw_border_bottom b area).content.getD
        ((area.y + area.height) * W + area.x) Cell.default).symbol = "╰"
    ∧ ((draw_border_bottom b area).content.getD
        ((area.y + area.height) * W + (area.x + area.width - 1)) Cell.default).symbol = "╯" := by
  have haxW : area.x < W := by omega
  have hm : ((area.y + area.height) * W + area.x) % W = area.x := rowcol_mod _ _ _ haxW
  simp only [draw_border_bottom]
  set B1 := (b.set_stringn area.x (area.y + area.height) [cornerBL] 1 Style.new).1 with hB1
  set B2 := (List.range' 1 (area.width - 1 - 1)).foldl
    (fun bb k => (bb.set_stringn (area.x + k) (area.y + area.height) [hbar] 1 Style.new).1) B1
    with hB2
  have hWB1 : B1.width = W := by rw [hB1, sset_width, hbW]
  have hWB2 : B2.width = W := by rw [hB2, hbar_fold_width, hWB1]
  have hLB1 : B1.content.length = W * H := by rw [hB1, sset_length, hlen]
  have hLB2 : B2.content.length = W * H := by rw [hB2, hbar_fold_length, hLB1]
  constructor
  · rw [sset1_getD_ne B2 (area.x + area.width - 1) (area.y + area.height) cornerBR Style.new
      _ Cell.default
      (by rw [hWB2]
          exact lt_trans (idx_lt _ _ _ _ (by omega) hrowb) harea)
      (Or.inl (by rw [hWB2, hm]; omega))]
    rw [hB2, hbar_fold_getD_ne _ area.x (area.y + area.height) hbar Style.new B1 _ Cell.default
      (by intro k hk
          rw [List.mem_range'_1] at hk
          rw [hWB1]
          exact lt_trans (idx_lt _ _ _ _ (by omega) hrowb) harea)
      (by intro k hk
          rw [List.mem_range'_1] at hk
          exact Or.inl (by rw [hWB1, hm]; omega))]
    have hv := sset1_getD_self b area.x (area.y + area.height) cornerBL Style.new Cell.default
      rfl (by omega)
      (by rw [hbW]; exact lt_trans (idx_lt _ _ _ _ haxW hrowb) harea)
      (by rw [hlen, hbW]; exact idx_lt _ _ _ _ haxW hrowb)
    rw [hbW] at hv
    rw [hB1, hv]
    rfl
  · have hv := sset1_getD_self B2 (area.x + area.width - 1) (area.y + area.height) cornerBR
      Style.new Cell.default rfl
      (by rw [hWB2]; omega)
      (by rw [hWB2]
          exact lt_trans (idx_lt _ _ _ _ (by omega) hrowb) harea)
      (by rw [hWB2, hLB2]
          exact idx_lt _ _ _ _ (by omega) hrowb)
    rw [hWB2] at hv
    rw [hv]
    rfl

/-! ### C9: the scrollbar thumb row -/

/-- C9 counterexample: window area 8 x 8 at the origin (interior height
6), scroll fraction 1. The claim places the thumb at track row
floor((6 - 4) * 1) = 2, that is grid row 4; the code places it at track
row floor((8 - 4) * 1) = 4, that is grid row 6. Row 4 of the right border
column holds the track glyph, not the thumb. -/
theorem scrollbar_thumb_cx :
    ((draw_border (Buffer.empty 8 9) ⟨0, 0, 8, 8⟩ [] ⟨true, 1⟩).content.getD
        (6 * 8 + 7) Cell.default).symbol = "█"
    ∧ ((draw_border (Buffer.empty 8 9) ⟨0, 0, 8, 8⟩ [] ⟨true, 1⟩).content.getD
        (4 * 8 + 7) Cell.default).symbol = "╎"
    ∧ ¬(((draw_border (Buffer.empty 8 9) ⟨0, 0, 8, 8⟩ [] ⟨true, 1⟩).content.getD
        (4 * 8 + 7) Cell.default).symbol = "█") := by
  simp only [draw_border, draw_border_top, draw_border_sides, draw_border_bottom, mul_one]
  refine ⟨?_, ?_, ?_⟩ <;> decide

/-- C9 (amended): with a scrollbar requested and the fraction in [0, 1],
the border draw places the thumb glyph in the right border column at row
floor((interior_height - 2) * scroll_fraction) = floor((area.height - 4)
* scroll_fraction) relative to the track start (grid row area.y + 2),
where interior_height = area.height - 2. -/
theorem scrollbar_thumb_amended (buf : Buffer) (area : Rect) (title : List Grapheme)
    (info : ContentInfo)
    (hscb : info.scroll = true)
    (hfr0 : 0 ≤ info.scroll_pos) (hfr1 : info.scroll_pos ≤ 1)
    (hh4 : 4 ≤ area.height) (haw : 1 ≤ area.width)
    (hax : area.x + area.width ≤ buf.width)
    (hay : area.y + area.height < buf.height)
    (hlen : buf.content.length = buf.width * buf.height)
    (harea : buf.width * buf.height < 65536) :
    ((draw_border buf area title info).content.getD
        ((area.y + 2 + ((((area.height - 2 - 2 : Nat) : Rat)) * info.scroll_pos).floor.toNat)
          * buf.width + (area.x + area.width - 1)) Cell.default).symbol = "█" := by
  have h42 : area.height - 2 - 2 = area.height - 4 := by omega
  rw [h42]
  have hpos := thumb_pos_le area.height info.scroll_pos hfr0 hfr1
  unfold draw_border
  rw [bottom_getD_ne (draw_border_sides (draw_border_top buf area title) area info) area
    _ Cell.default
    (by rw [sides_width, top_width]; exact hax)
    (by omega)
    (by rw [sides_height, top_height]; exact hay)
    (by rw [sides_width, top_width, sides_height, top_height]; exact harea)
    (by rw [sides_width, top_width]
        rw [rowcol_div _ _ _ (by omega)]
        omega)]
  exact sides_thumb (draw_border_top buf area title) area info buf.width buf.height
    (top_width _ _ _) (top_height _ _ _) hscb hax haw (le_of_lt hay) hh4 hfr0 hfr1
    (by rw [top_length]; exact hlen) harea

/-- Witness for scrollbar_thumb_amended at a concrete buffer, area and
full scroll fraction. -/
theorem scrollbar_thumb_amended_witness :
    (c9Info.scroll = true
      ∧ (0 : Rat) ≤ c9Info.scroll_pos
      ∧ c9Info.scroll_pos ≤ 1
      ∧ 4 ≤ c9Area.height
      ∧ 1 ≤ c9Area.width
      ∧ c9Area.x + c9Area.width ≤ c9Buf.width
      ∧ c9Area.y + c9Area.height < c9Buf.height
      ∧ c9Buf.content.length = c9Buf.width * c9Buf.height
      ∧ c9Buf.width * c9Buf.height < 65536)
    ∧ ((draw_border c9Buf c9Area [] c9Info).content.getD
        ((c9Area.y + 2
            + ((((c9Area.height - 2 - 2 : Nat) : Rat)) * c9Info.scroll_pos).floor.toNat)
          * c9Buf.width + (c9Area.x + c9Area.width - 1)) Cell.default).symbol = "█" :=
  ⟨⟨rfl, zero_le_one, le_refl 1, by decide, by decide, by decide, by decide, by decide,
      by decide⟩,
    scrollbar_thumb_amended c9Buf c9Area [] c9Info
      rfl zero_le_one (le_refl 1) (by decide) (by decide) (by decide) (by decide)
      (by decide) (by decide)⟩

/-! ### C10: the window draw footprint -/

theorem insert_nil (b : Buffer) (x y : Nat) (other : Buffer)
    (h0 : other.content.length = 0) : b.insert x y other = b := by
  simp only [Buffer.insert, h0]
  rfl

theorem insert_getD_notouch (b : Buffer) (x y : Nat) (other : Buffer) (i : Nat) (d : Cell)
    (holen : other.content.length = other.width * other.height)
    (hxs : x + other.width ≤ b.width) (hys : y + other.height ≤ b.height)
    (harea : b.width * b.height < 65536)
    (hi : i / b.width < y ∨ y + other.height ≤ i / b.width ∨
          i % b.width < x ∨ x + other.width ≤ i % b.width) :
    (b.insert x y other).content.getD i d = b.content.getD i d := by
  rcases Nat.eq_zero_or_pos other.content.length with h0 | hposl
  · rw [insert_nil b x y other h0]
  · have how : 0 < other.width := by
      rcases Nat.eq_zero_or_pos other.width with hw0 | hw
      · rw [hw0, Nat.zero_mul] at holen; omega
      · exact hw
    exact insert_getD_outside b x y other i d how holen hxs hys harea hi

/-- C10: Window::draw writes the bottom border corners into the parent at
row y + height — one row past the last row of the declared area — while
the top border sits at row y, so the rendered footprint spans the
height + 1 rows from y to y + height inclusive: rows above y or below
y + height are untouched. -/
theorem window_draw_footprint {σ : Type} (win : Window σ) (parent : Buffer)
    (hw2 : 2 ≤ win.area.width) (hh1 : 1 ≤ win.area.height)
    (hbw : win.buffer.width = win.area.width - 2)
    (hbh : win.buffer.height = win.area.height - 2)
    (hblen : win.buffer.content.length = win.buffer.width * win.buffer.height)
    (hxs : win.area.x + win.area.width ≤ parent.width)
    (hys : win.area.y + win.area.height < parent.height)
    (hplen : parent.content.length = parent.width * parent.height)
    (hparea : parent.width * parent.height < 65536)
    (hsc : win.content_info.scroll = true →
      4 ≤ win.area.height ∧ 0 ≤ win.content_info.scroll_pos ∧ win.content_info.scroll_pos ≤ 1) :
    ((win.draw parent).content.getD
        ((win.area.y + win.area.height) * parent.width + win.area.x) Cell.default).symbol = "╰"
    ∧ ((win.draw parent).content.getD
        ((win.area.y + win.area.height) * parent.width
          + (win.area.x + win.area.width - 1)) Cell.default).symbol = "╯"
    ∧ ((win.draw parent).content.getD
        (win.area.y * parent.width + win.area.x) Cell.default).symbol = "╭"
    ∧ (∀ i d, i / parent.width < win.area.y ∨ win.area.y + win.area.height < i / parent.width →
        (win.draw parent).content.getD i d = parent.content.getD i d) := by
  have haxW : win.area.x < parent.width := by omega
  unfold Window.draw draw_border
  set B0 := parent.insert (win.area.x + 1) (win.area.y + 1) win.buffer with hB0
  set T := draw_border_top B0 win.area win.title with hT
  set S := draw_border_sides T win.area win.content_info with hS
  have hWB0 : B0.width = parent.width := by rw [hB0]; exact insert_width _ _ _ _
  have hHB0 : B0.height = parent.height := by rw [hB0]; exact insert_height _ _ _ _
  have hLB0 : B0.content.length = parent.width * parent.height := by
    rw [hB0, insert_length, hplen]
  have hWT : T.width = parent.width := by rw [hT, top_width, hWB0]
  have hHT : T.height = parent.height := by rw [hT, top_height, hHB0]
  have hLT : T.content.length = parent.width * parent.height := by
    rw [hT, top_length, hLB0]
  have hWS : S.width = parent.width := by rw [hS, sides_width, hWT]
  have hHS : S.height = parent.height := by rw [hS, sides_height, hHT]
  have hLS : S.content.length = parent.width * parent.height := by
    rw [hS, sides_length, hLT]
  have hcorners := bottom_corners S win.area parent.width parent.height hWS hHS
    hxs hw2 hys hLS hparea
  refine ⟨hcorners.1, hcorners.2, ?_, ?_⟩
  · -- the top-left corner survives the sides and the bottom edge
    rw [bottom_getD_ne S win.area _ Cell.default
      (by rw [hWS]; exact hxs) (by omega) (by rw [hHS]; exact hys)
      (by rw [hWS, hHS]; exact hparea)
      (by rw [hWS, rowcol_div _ _ _ haxW]; omega)]
    rw [hS, sides_getD_ne T win.area win.content_info _ Cell.default
      (by rw [hWT]; exact hxs) (by omega) (by rw [hHT]; omega)
      (by rw [hWT, hHT]; exact hparea) hsc
      (Or.inl (by rw [hWT, rowcol_div _ _ _ haxW]))]
    rw [hT]
    exact top_corner B0 win.area win.title parent.width parent.height hWB0 hHB0
      hxs hw2 (by omega) hLB0 hparea
  · intro i d hrows
    rw [bottom_getD_ne S win.area i d
      (by rw [hWS]; exact hxs) (by omega) (by rw [hHS]; exact hys)
      (by rw [hWS, hHS]; exact hparea)
      (by rw [hWS]; omega)]
    rw [hS, sides_getD_ne T win.area win.content_info i d
      (by rw [hWT]; exact hxs) (by omega) (by rw [hHT]; omega)
      (by rw [hWT, hHT]; exact hparea) hsc
      (by rw [hWT]; rcases hrows with h | h
          · exact Or.inl (by omega)
          · exact Or.inr (Or.inl (by omega)))]
    rw [hT, top_getD_ne B0 win.area win.title i d
      (by rw [hWB0]; exact hxs) (by omega) (by rw [hHB0]; omega)
      (by rw [hWB0, hHB0]; exact hparea)
      (by rw [hWB0]; omega)]
    rw [hB0, insert_getD_notouch parent (win.area.x + 1) (win.area.y + 1) win.buffer i d
      hblen (by rw [hbw]; omega) (by rw [hbh]; omega) hparea
      (by rcases hrows with h | h
          · exact Or.inl (by omega)
          · exact Or.inr (Or.inl (by rw [hbh]; omega)))]

/-- Witness for window_draw_footprint at a concrete window and parent. -/
theorem window_draw_footprint_witness :
    (2 ≤ wfW.area.width ∧ 1 ≤ wfW.area.height
      ∧ wfW.buffer.width = wfW.area.width - 2
      ∧ wfW.buffer.height = wfW.area.height - 2
      ∧ wfW.buffer.content.length = wfW.buffer.width * wfW.buffer.height
      ∧ wfW.area.x + wfW.area.width ≤ wfP.width
      ∧ wfW.area.y + wfW.area.height < wfP.height
      ∧ wfP.content.length = wfP.width * wfP.height
      ∧ wfP.width * wfP.height < 65536)
    ∧ (((wfW.draw wfP).content.getD
          ((wfW.area.y + wfW.area.height) * wfP.width + wfW.area.x) Cell.default).symbol = "╰"
      ∧ ((wfW.draw wfP).content.getD
          ((wfW.area.y + wfW.area.height) * wfP.width
            + (wfW.area.x + wfW.area.width - 1)) Cell.default).symbol = "╯"
      ∧ ((wfW.draw wfP).content.getD
          (wfW.area.y * wfP.width + wfW.area.x) Cell.default).symbol = "╭"
      ∧ (∀ i d, i / wfP.width < wfW.area.y ∨ wfW.area.y + wfW.area.height < i / wfP.width →
          (wfW.draw wfP).content.getD i d = wfP.content.getD i d)) :=
  ⟨⟨by decide, by decide, by decide, by decide, by decide, by decide, by decide, by decide,
      by decide⟩,
    window_draw_footprint wfW wfP (by decide) (by decide) (by decide) (by decide) (by decide)
      (by decide) (by decide) (by decide) (by decide)
      (fun h => absurd h (by decide))⟩
